import Mathlib

/-!
Tetris Stack: circular piece queue and reserve stack.

A shallow embedding of `tetris.c`.  Every C function becomes a Lean function
on explicit state.  A C statement whose behaviour the language leaves undefined
(an array access outside its bounds, a read of a local slot that was never
written) makes the embedded function return `none`; `int` arithmetic is
performed on `Int` and reduced to 32 bits by `wrap32`, and `%` is C's truncating
remainder.  The outcome of each `rand()` call is an explicit argument.
-/

namespace Tetris

/-! ## Constants and machine arithmetic -/

/-- Capacity of the piece queue (`#define TAM_FILA 5`). -/
abbrev TAM_FILA : Nat := 5

/-- Capacity of the reserve stack (`#define TAM_PILHA 3`). -/
abbrev TAM_PILHA : Nat := 3

/-- Reduction of an integer to the range of a 32-bit two's complement `int`. -/
def wrap32 (x : Int) : Int := (x + 2147483648) % 4294967296 - 2147483648

/-- The C expression `a + b` on `int`. -/
def addI (a b : Int) : Int := wrap32 (a + b)

/-- The C expression `a - b` on `int`. -/
def subI (a b : Int) : Int := wrap32 (a - b)

/-- The C expression `a % b` on `int` (remainder of the truncating division). -/
def modI (a b : Int) : Int := Int.tmod a b

/-- Read of `a[i]` for a C array of `n` slots; `none` outside the bounds. -/
def lerEm {n : Nat} {α : Type} (a : Fin n → α) (i : Int) : Option α :=
  if h : 0 ≤ i ∧ i < (n : Int) then some (a ⟨i.toNat, by omega⟩) else none

/-- Assignment `a[i] = v` for a C array of `n` slots; `none` outside the bounds. -/
def gravarEm {n : Nat} {α : Type} (a : Fin n → α) (i : Int) (v : α) :
    Option (Fin n → α) :=
  if h : 0 ≤ i ∧ i < (n : Int) then some (Function.update a ⟨i.toNat, by omega⟩ v)
  else none

/-! ## Data model -/

/-- A Tetris piece (`struct Peca`). -/
structure Peca where
  nome : Char
  id : Int
deriving DecidableEq

/-- The circular queue of pieces (`struct Fila`). -/
structure Fila where
  fila : Fin TAM_FILA → Peca
  inicio : Int
  fim : Int
  tamanho : Int
  contadorID : Int
deriving DecidableEq

/-- The reserve stack (`struct Pilha`). -/
structure Pilha where
  pilha : Fin TAM_PILHA → Peca
  topo : Int
deriving DecidableEq

/-- The saved copy of queue and stack used by the undo (`struct Estado`). -/
structure Estado where
  fila : Fin TAM_FILA → Peca
  inicio : Int
  fim : Int
  tamanho : Int
  pilha : Pilha
deriving DecidableEq

/-- The table of piece kinds (`char tiposPecas[]`). -/
def tiposPecas : Fin 7 → Char := ![ 'I', 'O', 'T', 'L', 'J', 'S', 'Z' ]

/-- The piece returned by a failed `jogarPeca` or `pop`: `(Peca){ '-', 0 }`. -/
def pecaVazia : Peca := ⟨'-', 0⟩

/-! ## Functions of `tetris.c` -/

/-- Embedding of `gerarPeca`: `r` is the value returned by `rand()`; the result is
the new piece together with the advanced counter. -/
def gerarPeca (r : Nat) (contadorID : Int) : Peca × Int :=
  (⟨tiposPecas ⟨r % 7, Nat.mod_lt r (by decide)⟩, contadorID⟩, addI contadorID 1)

/-- One iteration of the loop of `inicializarFila`, at loop index `i` with `rand()`
returning `r`. -/
def inicializarFilaPasso (r : Nat) (f : Fila) (i : Nat) : Option Fila :=
  let g := gerarPeca r f.contadorID
  match gravarEm f.fila (i : Int) g.1 with
  | none => none
  | some arr =>
    some { fila := arr, inicio := f.inicio,
           fim := modI (addI f.fim 1) TAM_FILA,
           tamanho := addI f.tamanho 1, contadorID := g.2 }

/-- Embedding of `inicializarFila`: `f` is the memory the caller passes in and
`rnd i` is the value of the `i`-th call of `rand()`. -/
def inicializarFila (f : Fila) (rnd : Nat → Nat) : Option Fila :=
  (List.range TAM_FILA).foldlM (fun g i => inicializarFilaPasso (rnd i) g i)
    { fila := f.fila, inicio := 0, fim := 0, tamanho := 0, contadorID := 1 }

/-- Embedding of `inicializarPilha`. -/
def inicializarPilha (p : Pilha) : Pilha := { pilha := p.pilha, topo := -1 }

/-- The pieces printed by the loop of `mostrarFila`, for `c` remaining iterations
starting at index `i`. -/
def mostrarFilaDe (a : Fin TAM_FILA → Peca) : Nat → Int → Option (List Peca)
  | 0, _ => some []
  | c + 1, i =>
    match lerEm a i with
    | none => none
    | some x =>
      match mostrarFilaDe a c (modI (addI i 1) TAM_FILA) with
      | none => none
      | some resto => some (x :: resto)

/-- Embedding of `mostrarFila`: the pieces it prints, front to back. -/
def mostrarFila (f : Fila) : Option (List Peca) :=
  mostrarFilaDe f.fila f.tamanho.toNat f.inicio

/-- Embedding of `jogarPeca`: `r` is the value `rand()` returns if it is called. -/
def jogarPeca (f : Fila) (r : Nat) : Option (Peca × Fila) :=
  if f.tamanho = 0 then some (pecaVazia, f)
  else
    match lerEm f.fila f.inicio with
    | none => none
    | some p =>
      let inicio1 := modI (addI f.inicio 1) TAM_FILA
      let tamanho1 := subI f.tamanho 1
      let g := gerarPeca r f.contadorID
      match gravarEm f.fila f.fim g.1 with
      | none => none
      | some arr =>
        some (p, { fila := arr, inicio := inicio1,
                   fim := modI (addI f.fim 1) TAM_FILA,
                   tamanho := addI tamanho1 1, contadorID := g.2 })

/-- The pieces printed by `mostrarPilha`, bottom to top. -/
def mostrarPilha (p : Pilha) : Option (List Peca) :=
  (List.range (p.topo + 1).toNat).mapM (fun (i : Nat) => lerEm p.pilha (i : Int))

/-- Embedding of `push`: the returned flag and the stack afterwards. -/
def push (p : Pilha) (pc : Peca) : Option (Int × Pilha) :=
  if p.topo ≥ (TAM_PILHA : Int) - 1 then some (0, p)
  else
    let topo1 := addI p.topo 1
    match gravarEm p.pilha topo1 pc with
    | none => none
    | some arr => some (1, { pilha := arr, topo := topo1 })

/-- Embedding of `pop`: the returned piece and the stack afterwards. -/
def pop (p : Pilha) : Option (Peca × Pilha) :=
  if p.topo = -1 then some (pecaVazia, p)
  else
    match lerEm p.pilha p.topo with
    | none => none
    | some x => some (x, { pilha := p.pilha, topo := subI p.topo 1 })

/-- Embedding of `trocarFilaPilha`. -/
def trocarFilaPilha (f : Fila) (p : Pilha) : Option (Fila × Pilha) :=
  if p.topo = -1 then some (f, p)
  else
    match lerEm f.fila f.inicio with
    | none => none
    | some temp =>
      match lerEm p.pilha p.topo with
      | none => none
      | some t =>
        match gravarEm f.fila f.inicio t with
        | none => none
        | some arrF =>
          match gravarEm p.pilha p.topo temp with
          | none => none
          | some arrP => some ({ f with fila := arrF }, { p with pilha := arrP })

/-- The number `qtd` of elements `inverterFilaPilha` works on. -/
def inverterQtd (f : Fila) (p : Pilha) : Int :=
  let qtd : Int := 3
  let qtd := if f.tamanho < qtd then f.tamanho else qtd
  if addI p.topo 1 < qtd then addI p.topo 1 else qtd

/-- First loop of `inverterFilaPilha`, iteration `i`: `tempFila[i] = f->fila[idx]`.
A slot of the local array `tempFila` holds `none` until it is written. -/
def inverterGuardar (f : Fila) (temp : Fin 3 → Option Peca) (i : Nat) :
    Option (Fin 3 → Option Peca) :=
  let idx := modI (addI f.inicio i) TAM_FILA
  match lerEm f.fila idx with
  | none => none
  | some x => gravarEm temp (i : Int) (some x)

/-- Second loop of `inverterFilaPilha`, iteration `i`:
`f->fila[idx] = p->pilha[p->topo - i]`. -/
def inverterParaFila (p : Pilha) (f : Fila) (i : Nat) : Option Fila :=
  let idx := modI (addI f.inicio i) TAM_FILA
  match lerEm p.pilha (subI p.topo i) with
  | none => none
  | some x =>
    match gravarEm f.fila idx x with
    | none => none
    | some arr => some { f with fila := arr }

/-- Third loop of `inverterFilaPilha`, iteration `i`: `p->pilha[i] = tempFila[i]`. -/
def inverterParaPilha (temp : Fin 3 → Option Peca) (p : Pilha) (i : Nat) :
    Option Pilha :=
  match lerEm temp (i : Int) with
  | some (some x) =>
    match gravarEm p.pilha (i : Int) x with
    | none => none
    | some arr => some { p with pilha := arr }
  | _ => none

/-- Embedding of `inverterFilaPilha`. -/
def inverterFilaPilha (f : Fila) (p : Pilha) : Option (Fila × Pilha) :=
  let qtd := inverterQtd f p
  let is := List.range qtd.toNat
  match is.foldlM (inverterGuardar f) (fun _ => none) with
  | none => none
  | some tempFila =>
    match is.foldlM (inverterParaFila p) f with
    | none => none
    | some f1 =>
      match is.foldlM (inverterParaPilha tempFila)
          { pilha := p.pilha, topo := subI qtd 1 } with
      | none => none
      | some p1 => some (f1, p1)

/-- Embedding of `salvarEstado`: every field of `est` is overwritten. -/
def salvarEstado (_est : Estado) (f : Fila) (p : Pilha) : Estado :=
  { fila := f.fila, inicio := f.inicio, fim := f.fim, tamanho := f.tamanho, pilha := p }

/-- Embedding of `restaurarEstado`. -/
def restaurarEstado (est : Estado) (f : Fila) (_p : Pilha) : Fila × Pilha :=
  ({ fila := est.fila, inicio := est.inicio, fim := est.fim, tamanho := est.tamanho,
     contadorID := f.contadorID }, est.pilha)

/-! ## The menu loop of `main` -/

/-- The local variables `fila`, `pilha` and `ultimo` of `main`. -/
structure Sessao where
  fila : Fila
  pilha : Pilha
  ultimo : Estado
deriving DecidableEq

/-- Menu `case 1` (play the front piece); `r` is the value `rand()` returns. -/
def opcaoJogar (r : Nat) (s : Sessao) : Option (Peca × Sessao) :=
  let u := salvarEstado s.ultimo s.fila s.pilha
  match jogarPeca s.fila r with
  | none => none
  | some (p, f1) => some (p, { fila := f1, pilha := s.pilha, ultimo := u })

/-- Menu `case 2` (reserve the front piece); `r` is the value `rand()` returns if
it is called. -/
def opcaoReservar (r : Nat) (s : Sessao) : Option Sessao :=
  let u := salvarEstado s.ultimo s.fila s.pilha
  match lerEm s.fila.fila s.fila.inicio with
  | none => none
  | some p =>
    match push s.pilha p with
    | none => none
    | some (ok, p1) =>
      if ok ≠ 0 then
        match jogarPeca s.fila r with
        | none => none
        | some (_, f1) => some { fila := f1, pilha := p1, ultimo := u }
      else some { fila := s.fila, pilha := p1, ultimo := u }

/-- Menu `case 3` (use the reserved piece): the piece `pop` returned and the
session afterwards. -/
def opcaoUsar (s : Sessao) : Option (Peca × Sessao) :=
  let u := salvarEstado s.ultimo s.fila s.pilha
  match pop s.pilha with
  | none => none
  | some (p, p1) => some (p, { fila := s.fila, pilha := p1, ultimo := u })

/-- Menu `case 4` (swap the queue front with the stack top). -/
def opcaoTrocar (s : Sessao) : Option Sessao :=
  let u := salvarEstado s.ultimo s.fila s.pilha
  match trocarFilaPilha s.fila s.pilha with
  | none => none
  | some (f1, p1) => some { fila := f1, pilha := p1, ultimo := u }

/-- Menu `case 5` (undo). -/
def opcaoDesfazer (s : Sessao) : Sessao :=
  let fp := restaurarEstado s.ultimo s.fila s.pilha
  { fila := fp.1, pilha := fp.2, ultimo := s.ultimo }

/-- Menu `case 6` (invert queue front block and stack). -/
def opcaoInverter (s : Sessao) : Option Sessao :=
  let u := salvarEstado s.ultimo s.fila s.pilha
  match inverterFilaPilha s.fila s.pilha with
  | none => none
  | some (f1, p1) => some { fila := f1, pilha := p1, ultimo := u }

/-- The `switch (opcao)` of `main`; `case 0` and `default` change nothing. -/
def executarOpcao (opcao : Int) (r : Nat) (s : Sessao) : Option Sessao :=
  if opcao = 1 then (opcaoJogar r s).map Prod.snd
  else if opcao = 2 then opcaoReservar r s
  else if opcao = 3 then (opcaoUsar s).map Prod.snd
  else if opcao = 4 then opcaoTrocar s
  else if opcao = 5 then some (opcaoDesfazer s)
  else if opcao = 6 then opcaoInverter s
  else some s

/-- The `do ... while (opcao != 0)` loop of `main` over the typed menu choices; each
choice comes with the value `rand()` returns if the chosen branch calls it.  The
result is the session when the choices run out or `0` was chosen. -/
def mainLaco : Sessao → List (Int × Nat) → Option Sessao
  | s, [] => some s
  | s, (opcao, r) :: resto =>
    match executarOpcao opcao r s with
    | none => none
    | some s1 => if opcao = 0 then some s1 else mainLaco s1 resto

/-- Embedding of `main`: `lixoF`, `lixoP` and `lixoU` are the contents of the three
uninitialised locals, `rnd` gives the `rand()` values used by `inicializarFila`. -/
def main (lixoF : Fila) (lixoP : Pilha) (lixoU : Estado) (rnd : Nat → Nat)
    (entradas : List (Int × Nat)) : Option Sessao :=
  match inicializarFila lixoF rnd with
  | none => none
  | some f => mainLaco { fila := f, pilha := inicializarPilha lixoP, ultimo := lixoU } entradas

/-! ## Specification-level views -/

/-- Whether the menu choice `opcao` is one of those that call `salvarEstado`. -/
def opcaoSalva (opcao : Int) : Bool :=
  decide (opcao = 1 ∨ opcao = 2 ∨ opcao = 3 ∨ opcao = 4 ∨ opcao = 6)

/-- Menu choices in which every undo (`5`) comes after at least one choice that
saved the state (`1`, `2`, `3`, `4` or `6`); `salvo` tells whether a save has
already happened. -/
def desfazerAposSalvar : Bool → List (Int × Nat) → Bool
  | _, [] => true
  | salvo, (opcao, _) :: resto =>
    if opcao = 5 then salvo && desfazerAposSalvar salvo resto
    else desfazerAposSalvar (salvo || opcaoSalva opcao) resto

/-- The queue slot addressed by the (non-reduced) position `x`. -/
def casa (x : Int) : Fin TAM_FILA := ⟨(x % 5).toNat, by unfold TAM_FILA; omega⟩

/-- The `c` pieces stored from position `i` on, in circular order. -/
def janela (a : Fin TAM_FILA → Peca) (i : Int) (c : Nat) : List Peca :=
  (List.range c).map (fun (k : Nat) => a (casa (i + (k : Int))))

/-- The stack slot addressed by index `x`. -/
def nivel (x : Int) : Fin TAM_PILHA := ⟨x.toNat % 3, by unfold TAM_PILHA; omega⟩

/-- The data-model invariant of the queue: `inicio` is a valid index, `tamanho` is
between 0 and the capacity, and `fim` is the next insertion point. -/
def filaBemFormada (f : Fila) : Prop :=
  (0 ≤ f.inicio ∧ f.inicio < 5) ∧ (0 ≤ f.tamanho ∧ f.tamanho ≤ 5) ∧
    f.fim = (f.inicio + f.tamanho) % 5

instance (f : Fila) : Decidable (filaBemFormada f) := by
  unfold filaBemFormada; infer_instance

/-- The data-model invariant of the stack: `-1 ≤ topo ≤ 2`. -/
def pilhaBemFormada (p : Pilha) : Prop := -1 ≤ p.topo ∧ p.topo ≤ 2

instance (p : Pilha) : Decidable (pilhaBemFormada p) := by
  unfold pilhaBemFormada; infer_instance

/-- Queue buffer after the second loop of `inverterFilaPilha` has run `n` times:
position `k` of the live window receives the stack slot `topo - k`. -/
def blocoParaFila (a : Fin TAM_FILA → Peca) (pil : Fin TAM_PILHA → Peca) (inicio topo : Int) :
    Nat → Fin TAM_FILA → Peca
  | 0 => a
  | n + 1 =>
    Function.update (blocoParaFila a pil inicio topo n) (casa (inicio + (n : Int)))
      (pil (nivel (topo - (n : Int))))

/-- Stack buffer after the third loop of `inverterFilaPilha` has run `n` times:
slot `k` receives position `k` of the old live window of the queue. -/
def blocoParaPilha (a : Fin TAM_FILA → Peca) (pil : Fin TAM_PILHA → Peca) (inicio : Int) :
    Nat → Fin TAM_PILHA → Peca
  | 0 => pil
  | n + 1 =>
    Function.update (blocoParaPilha a pil inicio n) (nivel (n : Int))
      (a (casa (inicio + (n : Int))))

/-- The data-model invariants hold for a saved state. -/
def estadoBemFormado (e : Estado) : Prop :=
  (0 ≤ e.inicio ∧ e.inicio < 5) ∧ (0 ≤ e.tamanho ∧ e.tamanho ≤ 5) ∧
    e.fim = (e.inicio + e.tamanho) % 5 ∧ pilhaBemFormada e.pilha

/-- Invariant of the menu loop: queue and stack are well formed, and so is the saved
state once a save has happened (`salvo`). -/
def sessaoBemFormada (salvo : Bool) (s : Sessao) : Prop :=
  filaBemFormada s.fila ∧ pilhaBemFormada s.pilha ∧ (salvo = true → estadoBemFormado s.ultimo)

/-- The result of calling `inverterFilaPilha` `n` times in succession. -/
def inverterVezes : Nat → Fila → Pilha → Option (Fila × Pilha)
  | 0, f, p => some (f, p)
  | n + 1, f, p =>
    match inverterFilaPilha f p with
    | none => none
    | some (f1, p1) => inverterVezes n f1 p1

/-- The live pieces of the stack, bottom to top: slots `0..topo`. -/
def pilhaViva (p : Pilha) : List Peca :=
  (List.range (p.topo + 1).toNat).map (fun (k : Nat) => p.pilha (nivel (k : Int)))

/-- The live pieces of a full queue stored in `a` from `inicio` on, followed by the live
pieces of the stack. -/
def pecasVivas (a : Fin TAM_FILA → Peca) (inicio : Int) (p : Pilha) : List Peca :=
  janela a inicio 5 ++ pilhaViva p

/-- The pieces of `l` have pairwise distinct ids, all of them below the counter `c`. -/
def idsValidos (c : Int) (l : List Peca) : Prop :=
  (l.map Peca.id).Nodup ∧ ∀ x ∈ l, x.id < c

/-- The queue is full: `inicio` is a valid index, `tamanho = 5` and `fim = inicio`. -/
def filaCheia (f : Fila) : Prop :=
  (0 ≤ f.inicio ∧ f.inicio < 5) ∧ f.tamanho = 5 ∧ f.fim = f.inicio

/-- Invariant of the menu loop with a full queue: the stack is well formed, and the
saved state, once there is one, also holds a full queue and a well-formed stack. -/
def sessaoCheia (salvo : Bool) (s : Sessao) : Prop :=
  filaCheia s.fila ∧ pilhaBemFormada s.pilha ∧
    (salvo = true →
      ((0 ≤ s.ultimo.inicio ∧ s.ultimo.inicio < 5) ∧ s.ultimo.tamanho = 5 ∧
        s.ultimo.fim = s.ultimo.inicio) ∧ pilhaBemFormada s.ultimo.pilha)

/-- The queue left by `jogarPeca` on a full queue: the new piece overwrites the old
front slot and `inicio`, `fim` advance together. -/
def filaAposJogar (f : Fila) (r : Nat) : Fila :=
  { fila := Function.update f.fila (casa f.inicio) (gerarPeca r f.contadorID).1,
    inicio := (f.inicio + 1) % 5, fim := (f.inicio + 1) % 5, tamanho := 5,
    contadorID := addI f.contadorID 1 }

/-- Invariant of the menu loop about ids: the queue is full, the live pieces of queue
and stack have pairwise distinct ids below `contadorID`, and so have the live pieces
of the saved state once there is one. -/
def sessaoIds (salvo : Bool) (s : Sessao) : Prop :=
  sessaoCheia salvo s ∧
  idsValidos s.fila.contadorID (pecasVivas s.fila.fila s.fila.inicio s.pilha) ∧
  (salvo = true →
    idsValidos s.fila.contadorID (pecasVivas s.ultimo.fila s.ultimo.inicio s.ultimo.pilha))

/-- The piece generated while menu choice `opcao` is executed in session `s`, if any.
`gerarPeca` is the only code that writes `contadorID` and it always changes it, so a
piece was generated exactly when the counter changed; the piece carries the old
counter as its id. -/
def pecaGerada (opcao : Int) (r : Nat) (s : Sessao) : List Peca :=
  match executarOpcao opcao r s with
  | none => []
  | some s1 =>
    if s1.fila.contadorID = s.fila.contadorID then []
    else [(gerarPeca r s.fila.contadorID).1]

/-- The pieces generated by the menu loop on the given choices, in generation order. -/
def geradasNoLaco : Sessao → List (Int × Nat) → List Peca
  | _, [] => []
  | s, (opcao, r) :: resto =>
    pecaGerada opcao r s ++
      (match executarOpcao opcao r s with
       | none => []
       | some s1 => if opcao = 0 then [] else geradasNoLaco s1 resto)

/-- Every piece generated by `main` on the given choices, in generation order: the five
pieces of `inicializarFila`, then those of the menu loop. -/
def geradasEmMain (lixoF : Fila) (lixoP : Pilha) (lixoU : Estado) (rnd : Nat → Nat)
    (entradas : List (Int × Nat)) : List Peca :=
  match inicializarFila lixoF rnd with
  | none => []
  | some f =>
    List.ofFn f.fila ++
      geradasNoLaco { fila := f, pilha := inicializarPilha lixoP, ultimo := lixoU } entradas

/-- No overflow of the 32-bit counter in the menu loop: no executed choice generated a
piece while `contadorID` was `2^31 - 1`. -/
def semTransbordo : Sessao → List (Int × Nat) → Bool
  | _, [] => true
  | s, (opcao, r) :: resto =>
    (decide (s.fila.contadorID < 2147483647) || (pecaGerada opcao r s).isEmpty) &&
      (match executarOpcao opcao r s with
       | none => true
       | some s1 => if opcao = 0 then true else semTransbordo s1 resto)

/-- No overflow of the 32-bit counter in the run of `main` on the given choices. -/
def mainSemTransbordo (lixoF : Fila) (lixoP : Pilha) (lixoU : Estado) (rnd : Nat → Nat)
    (entradas : List (Int × Nat)) : Bool :=
  match inicializarFila lixoF rnd with
  | none => true
  | some f =>
    semTransbordo { fila := f, pilha := inicializarPilha lixoP, ultimo := lixoU } entradas

/-! ## Example data -/

/-- A full queue as left by `inicializarFila`. -/
def filaExemplo : Fila :=
  { fila := ![⟨'I', 1⟩, ⟨'O', 2⟩, ⟨'T', 3⟩, ⟨'L', 4⟩, ⟨'J', 5⟩],
    inicio := 0, fim := 0, tamanho := 5, contadorID := 6 }

/-- A stack holding two pieces; slot 2 is stale. -/
def pilhaExemplo : Pilha :=
  { pilha := ![⟨'S', 7⟩, ⟨'Z', 8⟩, ⟨'I', 9⟩], topo := 1 }

/-- The session right after the initialisation in `main`. -/
def sessaoExemplo : Sessao :=
  { fila := filaExemplo, pilha := inicializarPilha pilhaExemplo,
    ultimo := { fila := fun _ => ⟨'x', 0⟩, inicio := 9, fim := 9, tamanho := 9,
                pilha := pilhaExemplo } }

/-- A full stack (three pieces). -/
def pilhaCheiaExemplo : Pilha :=
  { pilha := ![⟨'S', 7⟩, ⟨'Z', 8⟩, ⟨'I', 9⟩], topo := 2 }

/-- A well-formed queue holding a single live piece. -/
def filaCurtaExemplo : Fila :=
  { fila := ![⟨'I', 1⟩, ⟨'O', 2⟩, ⟨'T', 3⟩, ⟨'L', 4⟩, ⟨'J', 5⟩],
    inicio := 0, fim := 1, tamanho := 1, contadorID := 6 }

/-- The snapshot whose every byte is zero. -/
def estadoZero : Estado :=
  { fila := fun _ => ⟨Char.ofNat 0, 0⟩, inicio := 0, fim := 0, tamanho := 0,
    pilha := { pilha := fun _ => ⟨Char.ofNat 0, 0⟩, topo := 0 } }

/-- A well-formed empty queue. -/
def filaVaziaExemplo : Fila :=
  { fila := ![⟨'I', 1⟩, ⟨'O', 2⟩, ⟨'T', 3⟩, ⟨'L', 4⟩, ⟨'J', 5⟩],
    inicio := 3, fim := 3, tamanho := 0, contadorID := 6 }

/-- A session whose reserve stack is full. -/
def sessaoCheiaExemplo : Sessao :=
  { fila := filaExemplo, pilha := pilhaCheiaExemplo, ultimo := sessaoExemplo.ultimo }

/-! ## Basic facts about the machine arithmetic and the arrays -/

theorem wrap32_eq (x : Int) (h1 : -2147483648 ≤ x) (h2 : x < 2147483648) : wrap32 x = x := by
  unfold wrap32; omega

theorem modI_eq (a : Int) (b : Int) (ha : 0 ≤ a) (hb : 0 ≤ b) : modI a b = a % b := by
  unfold modI; exact Int.tmod_eq_emod ha hb

theorem lerEm_eq {n : Nat} {α : Type} (a : Fin n → α) (i : Int) (h : 0 ≤ i ∧ i < (n : Int)) :
    lerEm a i = some (a ⟨i.toNat, by omega⟩) := by
  unfold lerEm; rw [dif_pos h]

theorem gravarEm_eq {n : Nat} {α : Type} (a : Fin n → α) (i : Int) (v : α)
    (h : 0 ≤ i ∧ i < (n : Int)) :
    gravarEm a i v = some (Function.update a ⟨i.toNat, by omega⟩ v) := by
  unfold gravarEm; rw [dif_pos h]

theorem lerEm_casa (a : Fin TAM_FILA → Peca) (x y : Int) (h : x = y % 5) :
    lerEm a x = some (a (casa y)) := by
  subst h
  rw [lerEm_eq a _ ⟨by omega, by simp only [TAM_FILA]; push_cast; omega⟩]
  rfl

theorem gravarEm_casa (a : Fin TAM_FILA → Peca) (x y : Int) (v : Peca) (h : x = y % 5) :
    gravarEm a x v = some (Function.update a (casa y) v) := by
  subst h
  rw [gravarEm_eq a _ v ⟨by omega, by simp only [TAM_FILA]; push_cast; omega⟩]
  rfl

theorem seguinte_eq (i : Int) (h0 : 0 ≤ i) (h5 : i < 5) :
    modI (addI i 1) TAM_FILA = (i + 1) % 5 := by
  unfold addI
  rw [wrap32_eq _ (by omega) (by omega), modI_eq _ _ (by omega) (by simp)]
  simp

theorem mostrarFilaDe_eq (a : Fin TAM_FILA → Peca) (c : Nat) :
    ∀ i : Int, 0 ≤ i → i < 5 → mostrarFilaDe a c i = some (janela a i c) := by
  induction c with
  | zero => intro i _ _; simp [mostrarFilaDe, janela]
  | succ c ih =>
    intro i h0 h5
    have hn : mostrarFilaDe a c (modI (addI i 1) TAM_FILA) =
        some (janela a ((i + 1) % 5) c) := by
      rw [seguinte_eq i h0 h5]
      exact ih _ (by omega) (by omega)
    have hl : lerEm a i = some (a (casa i)) := lerEm_casa a i i (by omega)
    simp only [mostrarFilaDe, hn, hl, janela, List.range_succ_eq_map, List.map_cons,
      List.map_map]
    simp only [Nat.cast_zero, add_zero, Option.some.injEq, List.cons.injEq, true_and]
    apply List.map_congr_left
    intro k _
    simp only [Function.comp]
    congr 1
    apply Fin.ext
    simp only [casa]
    push_cast
    omega

theorem janela_succ_frente (a : Fin TAM_FILA → Peca) (i : Int) (m : Nat) :
    janela a i (m + 1) = a (casa i) :: janela a (i + 1) m := by
  simp only [janela, List.range_succ_eq_map, List.map_cons, List.map_map, Nat.cast_zero,
    add_zero, List.cons.injEq, true_and]
  apply List.map_congr_left
  intro k _
  simp only [Function.comp]
  congr 2
  push_cast
  omega

theorem janela_succ_fundo (a : Fin TAM_FILA → Peca) (i : Int) (m : Nat) :
    janela a i (m + 1) = janela a i m ++ [a (casa (i + m))] := by
  simp [janela, List.range_succ]

theorem casa_emod (x : Int) : casa (x % 5) = casa x := by
  apply Fin.ext
  simp only [casa]
  omega

theorem janela_emod (a : Fin TAM_FILA → Peca) (i : Int) (m : Nat) :
    janela a (i % 5) m = janela a i m := by
  simp only [janela]
  apply List.map_congr_left
  intro k _
  congr 1
  rw [← casa_emod (i % 5 + k), ← casa_emod (i + k)]
  congr 1
  omega

theorem casa_ne (x y : Int) (h1 : x < y) (h2 : y < x + 5) : casa x ≠ casa y := by
  intro h
  have := congrArg Fin.val h
  simp only [casa] at this
  omega

theorem janela_update (a : Fin TAM_FILA → Peca) (i : Int) (m : Nat) (j : Int) (v : Peca)
    (h1 : i + m ≤ j) (h2 : j < i + 5) :
    janela (Function.update a (casa j) v) i m = janela a i m := by
  simp only [janela]
  apply List.map_congr_left
  intro k hk
  have hk1 : k < m := by simpa using hk
  exact Function.update_noteq (casa_ne _ _ (by omega) (by omega)) _ _

/-! ## The queue: `jogarPeca` and `inicializarFila` -/

/-- C1: on a well-formed non-empty queue `jogarPeca` returns the piece stored at
slot `inicio`, keeps `tamanho`, and the front-to-back sequence afterwards is the
old one without its first element followed by the new piece, whose id is the old
`contadorID`. -/
theorem jogarPeca_fila_cheia (f : Fila) (r : Nat)
    (hi : 0 ≤ f.inicio ∧ f.inicio < 5) (ht : 1 ≤ f.tamanho ∧ f.tamanho ≤ 5)
    (hf : f.fim = (f.inicio + f.tamanho) % 5) :
    ∃ p f1 resto,
      jogarPeca f r = some (p, f1) ∧
      lerEm f.fila f.inicio = some p ∧
      f1.tamanho = f.tamanho ∧
      mostrarFila f = some (p :: resto) ∧
      mostrarFila f1 = some (resto ++ [(gerarPeca r f.contadorID).1]) ∧
      (gerarPeca r f.contadorID).1.id = f.contadorID := by
  obtain ⟨a, i, fm, t, c⟩ := f
  simp only at hi ht hf
  obtain ⟨hi1, hi2⟩ := hi
  obtain ⟨ht1, ht2⟩ := ht
  obtain ⟨m, rfl⟩ : ∃ m : Nat, t = (m : Int) + 1 := ⟨(t - 1).toNat, by omega⟩
  have hl : lerEm a i = some (a (casa i)) := lerEm_casa a i i (by omega)
  have hg : ∀ v, gravarEm a fm v = some (Function.update a (casa (i + 1 + m)) v) :=
    fun v => gravarEm_casa a fm _ v (by omega)
  have ht0 : ((m : Int) + 1 = 0) = False := by
    apply eq_false; omega
  have htn : ((m : Int) + 1).toNat = m + 1 := by omega
  have hj : jogarPeca ⟨a, i, fm, (m : Int) + 1, c⟩ r = some (a (casa i),
      { fila := Function.update a (casa (i + 1 + m)) (gerarPeca r c).1,
        inicio := modI (addI i 1) TAM_FILA, fim := modI (addI fm 1) TAM_FILA,
        tamanho := addI (subI ((m : Int) + 1) 1) 1, contadorID := (gerarPeca r c).2 }) := by
    simp only [jogarPeca, ht0, if_false, hl, hg]
  refine ⟨_, _, janela a (i + 1) m, hj, hl, ?_, ?_, ?_, rfl⟩
  · simp only [subI, addI]
    rw [wrap32_eq ((m : Int) + 1 - 1) (by omega) (by omega),
      wrap32_eq ((m : Int) + 1 - 1 + 1) (by omega) (by omega)]
    omega
  · simp only [mostrarFila, htn]
    rw [mostrarFilaDe_eq a _ i hi1 hi2, janela_succ_frente]
  · simp only [mostrarFila]
    rw [seguinte_eq i hi1 hi2]
    have e : (addI (subI ((m : Int) + 1) 1) 1).toNat = m + 1 := by
      simp only [subI, addI]
      rw [wrap32_eq ((m : Int) + 1 - 1) (by omega) (by omega),
        wrap32_eq ((m : Int) + 1 - 1 + 1) (by omega) (by omega)]
      omega
    rw [e, mostrarFilaDe_eq _ _ _ (by omega) (by omega), janela_emod, janela_succ_fundo,
      janela_update _ _ _ _ _ (le_refl _) (by omega)]
    simp

/-- Witness of `jogarPeca_fila_cheia` on the freshly initialised queue. -/
theorem jogarPeca_fila_cheia_witness :
    (0 ≤ filaExemplo.inicio ∧ filaExemplo.inicio < 5) ∧
    (1 ≤ filaExemplo.tamanho ∧ filaExemplo.tamanho ≤ 5) ∧
    filaExemplo.fim = (filaExemplo.inicio + filaExemplo.tamanho) % 5 ∧
    ∃ p f1 resto,
      jogarPeca filaExemplo 3 = some (p, f1) ∧
      lerEm filaExemplo.fila filaExemplo.inicio = some p ∧
      f1.tamanho = filaExemplo.tamanho ∧
      mostrarFila filaExemplo = some (p :: resto) ∧
      mostrarFila f1 = some (resto ++ [(gerarPeca 3 filaExemplo.contadorID).1]) ∧
      (gerarPeca 3 filaExemplo.contadorID).1.id = filaExemplo.contadorID :=
  ⟨by decide, by decide, by decide,
    jogarPeca_fila_cheia filaExemplo 3 (by decide) (by decide) (by decide)⟩

/-- Closed form of `inicializarFila`: whatever the memory held before and whatever
`rand()` returns, slot `k` receives the piece generated with id `k + 1`. -/
theorem inicializarFila_eq (f : Fila) (rnd : Nat → Nat) :
    inicializarFila f rnd = some
      { fila := fun k => (gerarPeca (rnd k) ((k : Nat) + 1)).1,
        inicio := 0, fim := 0, tamanho := 5, contadorID := 6 } := by
  have e1 : addI 1 1 = 2 := by decide
  have e2 : addI 2 1 = 3 := by decide
  have e3 : addI 3 1 = 4 := by decide
  have e4 : addI 4 1 = 5 := by decide
  simp only [inicializarFila, List.range, List.range.loop, List.foldlM, inicializarFilaPasso]
  simp only [gravarEm, gerarPeca]
  simp
  refine ⟨?_, by decide, by decide, by decide⟩
  funext k
  fin_cases k <;> simp [Function.update, Fin.ext_iff, e1, e2, e3, e4]

/-- C3: after `inicializarFila`, for every outcome of `rand()`, the queue has
`tamanho = 5`, `inicio = 0` and slots 0..4 carry the ids 1, 2, 3, 4, 5 in that order,
all distinct; after `inicializarPilha` the stack has `topo = -1`. -/
theorem inicializar_ids (f : Fila) (rnd : Nat → Nat) (p : Pilha) :
    ∃ g, inicializarFila f rnd = some g ∧ g.tamanho = 5 ∧ g.inicio = 0 ∧
      (List.ofFn g.fila).map Peca.id = [1, 2, 3, 4, 5] ∧
      ((List.ofFn g.fila).map Peca.id).Nodup ∧
      (inicializarPilha p).topo = -1 := by
  refine ⟨_, inicializarFila_eq f rnd, rfl, rfl, ?_, ?_, rfl⟩
  · simp [List.ofFn_succ, gerarPeca]
  · simp [List.ofFn_succ, gerarPeca]

/-! ## The stack: `push` and `pop` -/

theorem lerEm_nivel {α : Type} (a : Fin TAM_PILHA → α) (x : Int) (h1 : 0 ≤ x) (h2 : x ≤ 2) :
    lerEm a x = some (a (nivel x)) := by
  rw [lerEm_eq a x ⟨h1, by simp only [TAM_PILHA]; push_cast; omega⟩]
  congr 2
  apply Fin.ext
  simp only [nivel]
  omega

theorem gravarEm_nivel {α : Type} (a : Fin TAM_PILHA → α) (x : Int) (v : α)
    (h1 : 0 ≤ x) (h2 : x ≤ 2) :
    gravarEm a x v = some (Function.update a (nivel x) v) := by
  have e : ∀ hx : x.toNat < TAM_PILHA, (⟨x.toNat, hx⟩ : Fin TAM_PILHA) = nivel x := by
    intro hx
    apply Fin.ext
    simp only [nivel]
    omega
  rw [gravarEm_eq a x v ⟨h1, by simp only [TAM_PILHA]; push_cast; omega⟩, e]

theorem nivel_val (x : Int) (h1 : 0 ≤ x) (h2 : x ≤ 2) : ((nivel x : Fin TAM_PILHA) : Int) = x := by
  simp only [nivel]
  omega

theorem nivel_ne (x y : Int) (hx : 0 ≤ x) (hx2 : x ≤ 2) (hy : 0 ≤ y) (hy2 : y ≤ 2)
    (h : x ≠ y) : nivel x ≠ nivel y := by
  intro e
  have := congrArg Fin.val e
  simp only [nivel] at this
  omega

/-- Closed form of `push` on a full stack. -/
theorem push_cheia (p : Pilha) (pc : Peca) (h : 2 ≤ p.topo) : push p pc = some (0, p) := by
  have : p.topo ≥ ((TAM_PILHA : Nat) : Int) - 1 := by simp only [TAM_PILHA]; push_cast; omega
  simp only [push, this, if_true]

/-- Closed form of `push` on a stack with room. -/
theorem push_livre (p : Pilha) (pc : Peca) (h1 : -1 ≤ p.topo) (h2 : p.topo < 2) :
    push p pc = some (1, { pilha := Function.update p.pilha (nivel (p.topo + 1)) pc,
                           topo := p.topo + 1 }) := by
  have hn : ¬ p.topo ≥ ((TAM_PILHA : Nat) : Int) - 1 := by
    simp only [TAM_PILHA]; push_cast; omega
  have ha : addI p.topo 1 = p.topo + 1 := wrap32_eq _ (by omega) (by omega)
  simp only [push, hn, if_false, ha, gravarEm_nivel p.pilha (p.topo + 1) pc (by omega) (by omega)]

/-- Closed form of `pop` on an empty stack. -/
theorem pop_vazia (p : Pilha) (h : p.topo = -1) : pop p = some (pecaVazia, p) := by
  simp only [pop, h, if_true]

/-- Closed form of `pop` on a non-empty stack. -/
theorem pop_ocupada (p : Pilha) (h1 : 0 ≤ p.topo) (h2 : p.topo ≤ 2) :
    pop p = some (p.pilha (nivel p.topo), { pilha := p.pilha, topo := p.topo - 1 }) := by
  have hn : ¬ p.topo = -1 := by omega
  have hs : subI p.topo 1 = p.topo - 1 := wrap32_eq _ (by omega) (by omega)
  simp only [pop, hn, if_false, hs, lerEm_nivel p.pilha p.topo h1 h2]

/-- C4: on a stack with `-1 ≤ topo ≤ 2`, `push` returns 0 exactly when `topo = 2` and
then leaves the stack unchanged; otherwise it returns 1, increments `topo`, stores
`pc` at the new `topo` and leaves every other slot unchanged. -/
theorem push_contrato (p : Pilha) (pc : Peca) (h1 : -1 ≤ p.topo) (h2 : p.topo ≤ 2) :
    ∃ ok p1, push p pc = some (ok, p1) ∧
      (ok = 0 ↔ p.topo = 2) ∧
      (p.topo = 2 → p1 = p) ∧
      (p.topo ≠ 2 → ok = 1 ∧ p1.topo = p.topo + 1 ∧ lerEm p1.pilha p1.topo = some pc ∧
        ∀ j : Fin TAM_PILHA, (j : Int) ≠ p.topo + 1 → p1.pilha j = p.pilha j) := by
  by_cases h : p.topo = 2
  · refine ⟨0, p, push_cheia p pc (by omega), by simp [h], fun _ => rfl, fun hn => absurd h hn⟩
  · refine ⟨1, _, push_livre p pc h1 (by omega), by simp [h], fun e => absurd e h, fun _ => ?_⟩
    refine ⟨rfl, rfl, ?_, ?_⟩
    · simp only
      rw [lerEm_nivel _ _ (by omega) (by omega), Function.update_same]
    · intro j hj
      simp only
      apply Function.update_noteq
      intro e
      apply hj
      rw [e]
      exact nivel_val _ (by omega) (by omega)

/-- Witness of `push_contrato` on a stack with two pieces. -/
theorem push_contrato_witness :
    -1 ≤ pilhaExemplo.topo ∧ pilhaExemplo.topo ≤ 2 ∧
    ∃ ok p1, push pilhaExemplo ⟨'T', 3⟩ = some (ok, p1) ∧
      (ok = 0 ↔ pilhaExemplo.topo = 2) ∧
      (pilhaExemplo.topo = 2 → p1 = pilhaExemplo) ∧
      (pilhaExemplo.topo ≠ 2 → ok = 1 ∧ p1.topo = pilhaExemplo.topo + 1 ∧
        lerEm p1.pilha p1.topo = some ⟨'T', 3⟩ ∧
        ∀ j : Fin TAM_PILHA, (j : Int) ≠ pilhaExemplo.topo + 1 →
          p1.pilha j = pilhaExemplo.pilha j) :=
  ⟨by decide, by decide, push_contrato pilhaExemplo ⟨'T', 3⟩ (by decide) (by decide)⟩

/-- C5: on a stack with `-1 ≤ topo ≤ 2`, `pop` returns the piece `{ '-', 0 }` with the
stack unchanged exactly when `topo = -1`; otherwise it returns the piece stored at
index `topo` and decrements `topo`, leaving the slots as they were. -/
theorem pop_contrato (p : Pilha) (h1 : -1 ≤ p.topo) (h2 : p.topo ≤ 2) :
    ∃ x p1, pop p = some (x, p1) ∧
      ((x = pecaVazia ∧ p1 = p) ↔ p.topo = -1) ∧
      (p.topo ≠ -1 → lerEm p.pilha p.topo = some x ∧ p1.topo = p.topo - 1 ∧
        p1.pilha = p.pilha) := by
  by_cases h : p.topo = -1
  · exact ⟨_, _, pop_vazia p h, by simp [h], fun hn => absurd h hn⟩
  · refine ⟨_, _, pop_ocupada p (by omega) h2, ?_, fun _ => ?_⟩
    · constructor
      · intro e
        have := congrArg Pilha.topo e.2
        simp only at this
        omega
      · intro e; exact absurd e h
    · exact ⟨lerEm_nivel p.pilha p.topo (by omega) h2, rfl, rfl⟩

/-- Witness of `pop_contrato` on a stack with two pieces. -/
theorem pop_contrato_witness :
    -1 ≤ pilhaExemplo.topo ∧ pilhaExemplo.topo ≤ 2 ∧
    ∃ x p1, pop pilhaExemplo = some (x, p1) ∧
      ((x = pecaVazia ∧ p1 = pilhaExemplo) ↔ pilhaExemplo.topo = -1) ∧
      (pilhaExemplo.topo ≠ -1 → lerEm pilhaExemplo.pilha pilhaExemplo.topo = some x ∧
        p1.topo = pilhaExemplo.topo - 1 ∧ p1.pilha = pilhaExemplo.pilha) :=
  ⟨by decide, by decide, pop_contrato pilhaExemplo (by decide) (by decide)⟩

/-- Closed form of `jogarPeca` on an empty queue. -/
theorem jogarPeca_vazia (f : Fila) (r : Nat) (h : f.tamanho = 0) :
    jogarPeca f r = some (pecaVazia, f) := by
  simp only [jogarPeca, h, if_true]

/-- Closed form of `jogarPeca` on a non-empty queue with valid indices. -/
theorem jogarPeca_eq (f : Fila) (r : Nat) (hi : 0 ≤ f.inicio ∧ f.inicio < 5)
    (hf : 0 ≤ f.fim ∧ f.fim < 5) (ht : 1 ≤ f.tamanho ∧ f.tamanho ≤ 5) :
    jogarPeca f r = some (f.fila (casa f.inicio),
      { fila := Function.update f.fila (casa f.fim) (gerarPeca r f.contadorID).1,
        inicio := (f.inicio + 1) % 5, fim := (f.fim + 1) % 5,
        tamanho := f.tamanho, contadorID := addI f.contadorID 1 }) := by
  have ht0 : (f.tamanho = 0) = False := by
    apply eq_false; omega
  have e : addI (subI f.tamanho 1) 1 = f.tamanho := by
    simp only [subI, addI]
    rw [wrap32_eq (f.tamanho - 1) (by omega) (by omega),
      wrap32_eq (f.tamanho - 1 + 1) (by omega) (by omega)]
    omega
  simp only [jogarPeca, ht0, if_false, lerEm_casa f.fila f.inicio f.inicio (by omega),
    gravarEm_casa f.fila f.fim f.fim _ (by omega), seguinte_eq f.inicio hi.1 hi.2,
    seguinte_eq f.fim hf.1 hf.2, e]
  rfl

/-- On a well-formed queue `jogarPeca` is defined and keeps the queue well formed. -/
theorem jogarPeca_bemFormada (f : Fila) (r : Nat) (h : filaBemFormada f) :
    ∃ p f1, jogarPeca f r = some (p, f1) ∧ filaBemFormada f1 ∧ f1.tamanho = f.tamanho := by
  obtain ⟨hi, ht, hf⟩ := h
  by_cases h0 : f.tamanho = 0
  · exact ⟨_, _, jogarPeca_vazia f r h0, ⟨hi, ht, hf⟩, rfl⟩
  · refine ⟨_, _, jogarPeca_eq f r hi (by omega) (by omega), ⟨?_, ?_, ?_⟩, rfl⟩
    · simp only; omega
    · exact ht
    · simp only; omega

/-! ## Reserve and use -/

/-- C6: in every state with a well-formed queue and a stack that is not full, the
reserve operation (menu case 2) followed by the use-reserved operation (menu case 3)
makes `pop` return exactly the piece that was at the queue front when reserve was
called. -/
theorem reservar_usar (s : Sessao) (r : Nat) (hf : filaBemFormada s.fila)
    (hp : -1 ≤ s.pilha.topo ∧ s.pilha.topo < 2) :
    ∃ frente s1 s2, lerEm s.fila.fila s.fila.inicio = some frente ∧
      opcaoReservar r s = some s1 ∧ opcaoUsar s1 = some (frente, s2) := by
  obtain ⟨p, f1, hj, -, -⟩ := jogarPeca_bemFormada s.fila r hf
  have hl := lerEm_casa s.fila.fila s.fila.inicio s.fila.inicio (by have := hf.1; omega)
  have hpush := push_livre s.pilha (s.fila.fila (casa s.fila.inicio)) hp.1 hp.2
  have hres : opcaoReservar r s = some
      { fila := f1,
        pilha := { pilha := Function.update s.pilha.pilha (nivel (s.pilha.topo + 1))
                     (s.fila.fila (casa s.fila.inicio)), topo := s.pilha.topo + 1 },
        ultimo := salvarEstado s.ultimo s.fila s.pilha } := by
    simp only [opcaoReservar, hl, hpush, hj]
    simp
  have hpop := pop_ocupada
    { pilha := Function.update s.pilha.pilha (nivel (s.pilha.topo + 1))
        (s.fila.fila (casa s.fila.inicio)), topo := s.pilha.topo + 1 }
    (by simp only; omega) (by simp only; omega)
  have huse : ∃ s2, opcaoUsar
      { fila := f1,
        pilha := { pilha := Function.update s.pilha.pilha (nivel (s.pilha.topo + 1))
                     (s.fila.fila (casa s.fila.inicio)), topo := s.pilha.topo + 1 },
        ultimo := salvarEstado s.ultimo s.fila s.pilha } =
        some (s.fila.fila (casa s.fila.inicio), s2) := by
    simp only [opcaoUsar, hpop, Function.update_same]
    exact ⟨_, rfl⟩
  obtain ⟨s2, h2⟩ := huse
  exact ⟨_, _, s2, hl, hres, h2⟩

/-- Witness of `reservar_usar` on the fresh session. -/
theorem reservar_usar_witness :
    filaBemFormada sessaoExemplo.fila ∧
    (-1 ≤ sessaoExemplo.pilha.topo ∧ sessaoExemplo.pilha.topo < 2) ∧
    ∃ frente s1 s2,
      lerEm sessaoExemplo.fila.fila sessaoExemplo.fila.inicio = some frente ∧
      opcaoReservar 4 sessaoExemplo = some s1 ∧ opcaoUsar s1 = some (frente, s2) :=
  ⟨by decide, by decide, reservar_usar sessaoExemplo 4 (by decide) (by decide)⟩

/-! ## Swap of queue front and stack top -/

theorem casa_val (x : Int) (h1 : 0 ≤ x) (h2 : x < 5) : ((casa x : Fin TAM_FILA) : Int) = x := by
  simp only [casa]
  omega

/-- Closed form of `trocarFilaPilha` on an empty stack. -/
theorem trocar_vazia (f : Fila) (p : Pilha) (h : p.topo = -1) :
    trocarFilaPilha f p = some (f, p) := by
  simp only [trocarFilaPilha, h, if_true]

/-- Closed form of `trocarFilaPilha` on a non-empty stack. -/
theorem trocar_eq (f : Fila) (p : Pilha) (hi : 0 ≤ f.inicio ∧ f.inicio < 5)
    (ht : 0 ≤ p.topo ∧ p.topo ≤ 2) :
    trocarFilaPilha f p = some
      ({ f with fila := Function.update f.fila (casa f.inicio) (p.pilha (nivel p.topo)) },
       { p with pilha := Function.update p.pilha (nivel p.topo) (f.fila (casa f.inicio)) }) := by
  have hn : (p.topo = -1) = False := by
    apply eq_false; omega
  simp only [trocarFilaPilha, hn, if_false, lerEm_casa f.fila f.inicio f.inicio (by omega),
    lerEm_nivel p.pilha p.topo ht.1 ht.2, gravarEm_casa f.fila f.inicio f.inicio _ (by omega),
    gravarEm_nivel p.pilha p.topo _ ht.1 ht.2]

/-- C7: with `0 ≤ inicio < 5` and a non-empty stack, `trocarFilaPilha` makes
`fila[inicio]` the old `pilha[topo]` and `pilha[topo]` the old `fila[inicio]`, and
changes nothing else: `inicio`, `fim`, `tamanho`, `contadorID`, `topo` and every other
queue and stack slot are as before. -/
theorem trocar_moldura (f : Fila) (p : Pilha) (hi : 0 ≤ f.inicio ∧ f.inicio < 5)
    (ht : 0 ≤ p.topo ∧ p.topo ≤ 2) :
    ∃ f1 p1 frente reserva, trocarFilaPilha f p = some (f1, p1) ∧
      lerEm f.fila f.inicio = some frente ∧ lerEm p.pilha p.topo = some reserva ∧
      lerEm f1.fila f.inicio = some reserva ∧ lerEm p1.pilha p.topo = some frente ∧
      f1.inicio = f.inicio ∧ f1.fim = f.fim ∧ f1.tamanho = f.tamanho ∧
      f1.contadorID = f.contadorID ∧ p1.topo = p.topo ∧
      (∀ j : Fin TAM_FILA, (j : Int) ≠ f.inicio → f1.fila j = f.fila j) ∧
      (∀ j : Fin TAM_PILHA, (j : Int) ≠ p.topo → p1.pilha j = p.pilha j) := by
  refine ⟨_, _, _, _, trocar_eq f p hi ht, lerEm_casa f.fila f.inicio f.inicio (by omega),
    lerEm_nivel p.pilha p.topo ht.1 ht.2, ?_, ?_, rfl, rfl, rfl, rfl, rfl, ?_, ?_⟩
  · simp only
    rw [lerEm_casa _ f.inicio f.inicio (by omega), Function.update_same]
  · simp only
    rw [lerEm_nivel _ p.topo ht.1 ht.2, Function.update_same]
  · intro j hj
    simp only
    apply Function.update_noteq
    intro e
    apply hj
    rw [e]
    exact casa_val _ hi.1 hi.2
  · intro j hj
    simp only
    apply Function.update_noteq
    intro e
    apply hj
    rw [e]
    exact nivel_val _ ht.1 ht.2

/-- Witness of `trocar_moldura` on the example queue and stack. -/
theorem trocar_moldura_witness :
    (0 ≤ filaExemplo.inicio ∧ filaExemplo.inicio < 5) ∧
    (0 ≤ pilhaExemplo.topo ∧ pilhaExemplo.topo ≤ 2) ∧
    ∃ f1 p1 frente reserva, trocarFilaPilha filaExemplo pilhaExemplo = some (f1, p1) ∧
      lerEm filaExemplo.fila filaExemplo.inicio = some frente ∧
      lerEm pilhaExemplo.pilha pilhaExemplo.topo = some reserva ∧
      lerEm f1.fila filaExemplo.inicio = some reserva ∧
      lerEm p1.pilha pilhaExemplo.topo = some frente ∧
      f1.inicio = filaExemplo.inicio ∧ f1.fim = filaExemplo.fim ∧
      f1.tamanho = filaExemplo.tamanho ∧
      f1.contadorID = filaExemplo.contadorID ∧ p1.topo = pilhaExemplo.topo ∧
      (∀ j : Fin TAM_FILA, (j : Int) ≠ filaExemplo.inicio → f1.fila j = filaExemplo.fila j) ∧
      (∀ j : Fin TAM_PILHA, (j : Int) ≠ pilhaExemplo.topo →
        p1.pilha j = pilhaExemplo.pilha j) :=
  ⟨by decide, by decide, trocar_moldura filaExemplo pilhaExemplo (by decide) (by decide)⟩

/-- C8: `trocarFilaPilha` is its own inverse: for `0 ≤ inicio < 5` and
`-1 ≤ topo ≤ 2`, applying it twice gives back the original queue and stack. -/
theorem trocar_involucao (f : Fila) (p : Pilha) (hi : 0 ≤ f.inicio ∧ f.inicio < 5)
    (ht : -1 ≤ p.topo ∧ p.topo ≤ 2) :
    ∃ f1 p1, trocarFilaPilha f p = some (f1, p1) ∧ trocarFilaPilha f1 p1 = some (f, p) := by
  by_cases h : p.topo = -1
  · exact ⟨f, p, trocar_vazia f p h, trocar_vazia f p h⟩
  · have ht2 : 0 ≤ p.topo ∧ p.topo ≤ 2 := ⟨by omega, ht.2⟩
    refine ⟨_, _, trocar_eq f p hi ht2, ?_⟩
    rw [trocar_eq
      { fila := Function.update f.fila (casa f.inicio) (p.pilha (nivel p.topo)),
        inicio := f.inicio, fim := f.fim, tamanho := f.tamanho, contadorID := f.contadorID }
      { pilha := Function.update p.pilha (nivel p.topo) (f.fila (casa f.inicio)),
        topo := p.topo } hi ht2]
    simp only [Function.update_same, Function.update_idem, Function.update_eq_self]

/-- Witness of `trocar_involucao` on the example queue and stack. -/
theorem trocar_involucao_witness :
    (0 ≤ filaExemplo.inicio ∧ filaExemplo.inicio < 5) ∧
    (-1 ≤ pilhaExemplo.topo ∧ pilhaExemplo.topo ≤ 2) ∧
    ∃ f1 p1, trocarFilaPilha filaExemplo pilhaExemplo = some (f1, p1) ∧
      trocarFilaPilha f1 p1 = some (filaExemplo, pilhaExemplo) :=
  ⟨by decide, by decide, trocar_involucao filaExemplo pilhaExemplo (by decide) (by decide)⟩

/-! ## Block inversion -/

theorem foldlM_range_succ {σ : Type} (g : σ → Nat → Option σ) (s : σ) (n : Nat) :
    (List.range (n + 1)).foldlM g s = ((List.range n).foldlM g s).bind (fun t => g t n) := by
  rw [List.range_succ, List.foldlM_append]
  cases (List.range n).foldlM g s <;> simp

theorem deslocado_eq (i : Int) (k : Nat) (h0 : 0 ≤ i) (h5 : i < 5) (hk : k ≤ 3) :
    modI (addI i k) TAM_FILA = (i + k) % 5 := by
  unfold addI
  rw [wrap32_eq _ (by omega) (by omega), modI_eq _ _ (by omega) (by simp)]
  simp

/-- The first loop of `inverterFilaPilha` fills `tempFila[0..n)` with the first `n`
pieces of the live window. -/
theorem guardar_laco (f : Fila) (hi : 0 ≤ f.inicio ∧ f.inicio < 5)
    (temp0 : Fin 3 → Option Peca) (n : Nat) (hn : n ≤ 3) :
    (List.range n).foldlM (inverterGuardar f) temp0 = some (fun (j : Fin 3) =>
      if (j : Nat) < n then some (f.fila (casa (f.inicio + ((j : Nat) : Int)))) else temp0 j) := by
  induction n with
  | zero => simp
  | succ n ih =>
    rw [foldlM_range_succ, ih (by omega)]
    simp only [Option.some_bind, inverterGuardar, deslocado_eq f.inicio n hi.1 hi.2 (by omega),
      lerEm_casa f.fila _ (f.inicio + n) rfl]
    rw [gravarEm_nivel _ _ _ (by omega) (by omega)]
    congr 1
    funext j
    by_cases hj : j = nivel (n : Int)
    · subst hj
      have : ((nivel (n : Int) : Fin TAM_PILHA) : Nat) = n := by
        simp only [nivel]; omega
      simp [this]
    · rw [Function.update_noteq hj]
      have hne : (j : Nat) ≠ n := by
        intro e
        apply hj
        apply Fin.ext
        simp only [nivel]
        omega
      have h1 : ((j : Nat) < n + 1) = ((j : Nat) < n) := by
        apply propext; omega
      simp only [h1]

/-- The second loop of `inverterFilaPilha` in closed form. -/
theorem paraFila_laco (f : Fila) (p : Pilha) (hi : 0 ≤ f.inicio ∧ f.inicio < 5)
    (ht : p.topo ≤ 2) (n : Nat) (hn : n ≤ 3) (hnt : (n : Int) ≤ p.topo + 1) :
    (List.range n).foldlM (inverterParaFila p) f =
      some { f with fila := blocoParaFila f.fila p.pilha f.inicio p.topo n } := by
  induction n with
  | zero => simp [blocoParaFila]
  | succ n ih =>
    have hs : subI p.topo n = p.topo - n := wrap32_eq _ (by omega) (by omega)
    rw [foldlM_range_succ, ih (by omega) (by omega)]
    simp only [Option.some_bind, inverterParaFila, deslocado_eq f.inicio n hi.1 hi.2 (by omega),
      hs, lerEm_nivel p.pilha (p.topo - n) (by omega) (by omega),
      gravarEm_casa _ _ (f.inicio + n) _ rfl, blocoParaFila]

/-- The third loop of `inverterFilaPilha` in closed form. -/
theorem paraPilha_laco (f : Fila) (p : Pilha) (temp : Fin 3 → Option Peca) (n : Nat)
    (hn : n ≤ 3)
    (htemp : ∀ j : Fin 3, (j : Nat) < n →
      temp j = some (f.fila (casa (f.inicio + ((j : Nat) : Int))))) :
    (List.range n).foldlM (inverterParaPilha temp) p =
      some { p with pilha := blocoParaPilha f.fila p.pilha f.inicio n } := by
  induction n with
  | zero => simp [blocoParaPilha]
  | succ n ih =>
    rw [foldlM_range_succ, ih (by omega) (fun j hj => htemp j (by omega))]
    have hv : ((nivel (n : Int) : Fin TAM_PILHA) : Nat) = n := by
      simp only [nivel]; omega
    have hr : lerEm temp (n : Int) = some (some (f.fila (casa (f.inicio + n)))) := by
      rw [lerEm_nivel temp _ (by omega) (by omega), htemp _ (by omega), hv]
    simp only [Option.some_bind, inverterParaPilha, hr,
      gravarEm_nivel _ (n : Int) _ (by omega) (by omega), blocoParaPilha]

/-- On a well-formed stack `qtd` is `min(3, tamanho, topo + 1)`. -/
theorem inverterQtd_eq (f : Fila) (p : Pilha) (ht : -1 ≤ p.topo ∧ p.topo ≤ 2) :
    inverterQtd f p = min 3 (min f.tamanho (p.topo + 1)) := by
  have ha : addI p.topo 1 = p.topo + 1 := wrap32_eq _ (by omega) (by omega)
  simp only [inverterQtd, ha]
  split_ifs <;> omega

/-- Closed form of `inverterFilaPilha` for a valid `inicio` and a well-formed stack. -/
theorem inverter_eq (f : Fila) (p : Pilha) (hi : 0 ≤ f.inicio ∧ f.inicio < 5)
    (ht : -1 ≤ p.topo ∧ p.topo ≤ 2) :
    inverterFilaPilha f p = some
      ({ f with fila :=
           blocoParaFila f.fila p.pilha f.inicio p.topo (inverterQtd f p).toNat },
       { pilha := blocoParaPilha f.fila p.pilha f.inicio (inverterQtd f p).toNat,
         topo := subI (inverterQtd f p) 1 }) := by
  have hq := inverterQtd_eq f p ht
  have hn3 : (inverterQtd f p).toNat ≤ 3 := by omega
  have hnt : (((inverterQtd f p).toNat : Nat) : Int) ≤ p.topo + 1 := by omega
  have h1 := guardar_laco f hi (fun _ => none) _ hn3
  have h2 := paraFila_laco f p hi ht.2 _ hn3 hnt
  have h3 := paraPilha_laco f { pilha := p.pilha, topo := subI (inverterQtd f p) 1 }
    (fun (j : Fin 3) => if (j : Nat) < (inverterQtd f p).toNat then
      some (f.fila (casa (f.inicio + ((j : Nat) : Int)))) else none)
    _ hn3 (fun j hj => by simp only [hj, if_true])
  simp only [inverterFilaPilha, h1, h2, h3]

/-- Inside the block, queue position `k` holds the old stack slot `topo - k`. -/
theorem blocoParaFila_dentro (a : Fin TAM_FILA → Peca) (pil : Fin TAM_PILHA → Peca)
    (inicio topo : Int) (n : Nat) (hn : n ≤ 5) (k : Nat) (hk : k < n) :
    blocoParaFila a pil inicio topo n (casa (inicio + k)) = pil (nivel (topo - k)) := by
  induction n with
  | zero => omega
  | succ n ih =>
    simp only [blocoParaFila]
    by_cases e : k = n
    · subst e
      rw [Function.update_same]
    · rw [Function.update_noteq (casa_ne _ _ (by omega) (by omega))]
      exact ih (by omega) (by omega)

/-- Outside the block the queue buffer is untouched. -/
theorem blocoParaFila_fora (a : Fin TAM_FILA → Peca) (pil : Fin TAM_PILHA → Peca)
    (inicio topo : Int) (n : Nat) (j : Fin TAM_FILA)
    (hj : ∀ k : Nat, k < n → j ≠ casa (inicio + k)) :
    blocoParaFila a pil inicio topo n j = a j := by
  induction n with
  | zero => rfl
  | succ n ih =>
    simp only [blocoParaFila]
    rw [Function.update_noteq (hj n (by omega))]
    exact ih (fun k hk => hj k (by omega))

/-- Inside the block, stack slot `k` holds the old queue position `k`. -/
theorem blocoParaPilha_dentro (a : Fin TAM_FILA → Peca) (pil : Fin TAM_PILHA → Peca)
    (inicio : Int) (n : Nat) (hn : n ≤ 3) (k : Nat) (hk : k < n) :
    blocoParaPilha a pil inicio n (nivel k) = a (casa (inicio + k)) := by
  induction n with
  | zero => omega
  | succ n ih =>
    simp only [blocoParaPilha]
    by_cases e : k = n
    · subst e
      rw [Function.update_same]
    · rw [Function.update_noteq
        (nivel_ne _ _ (by omega) (by omega) (by omega) (by omega) (by omega))]
      exact ih (by omega) (by omega)

/-- Above the block the stack buffer is untouched. -/
theorem blocoParaPilha_fora (a : Fin TAM_FILA → Peca) (pil : Fin TAM_PILHA → Peca)
    (inicio : Int) (n : Nat) (j : Fin TAM_PILHA) (hj : n ≤ (j : Nat)) :
    blocoParaPilha a pil inicio n j = pil j := by
  induction n with
  | zero => rfl
  | succ n ih =>
    simp only [blocoParaPilha]
    have hne : j ≠ nivel (n : Int) := by
      intro e
      have := congrArg Fin.val e
      simp only [nivel] at this
      omega
    rw [Function.update_noteq hne]
    exact ih (by omega)

theorem salvar_bemFormado (u : Estado) (f : Fila) (p : Pilha) (hf : filaBemFormada f)
    (hp : pilhaBemFormada p) : estadoBemFormado (salvarEstado u f p) :=
  ⟨hf.1, hf.2.1, hf.2.2, hp⟩

theorem inverter_bemFormada (f : Fila) (p : Pilha) (hf : filaBemFormada f)
    (hp : pilhaBemFormada p) :
    ∃ f1 p1, inverterFilaPilha f p = some (f1, p1) ∧ filaBemFormada f1 ∧
      pilhaBemFormada p1 := by
  have hq := inverterQtd_eq f p hp
  obtain ⟨hi, hta, hfim⟩ := hf
  obtain ⟨hp1, hp2⟩ := hp
  have hs : subI (inverterQtd f p) 1 = inverterQtd f p - 1 :=
    wrap32_eq _ (by omega) (by omega)
  refine ⟨_, _, inverter_eq f p hi ⟨hp1, hp2⟩, ⟨hi, hta, hfim⟩, ?_⟩
  simp only [pilhaBemFormada, hs]
  omega

theorem trocar_bemFormada (f : Fila) (p : Pilha) (hf : filaBemFormada f)
    (hp : pilhaBemFormada p) :
    ∃ f1 p1, trocarFilaPilha f p = some (f1, p1) ∧ filaBemFormada f1 ∧
      pilhaBemFormada p1 := by
  by_cases h : p.topo = -1
  · exact ⟨f, p, trocar_vazia f p h, hf, hp⟩
  · exact ⟨_, _, trocar_eq f p hf.1 ⟨by have := hp.1; omega, hp.2⟩, hf, hp⟩

theorem push_bemFormada (p : Pilha) (pc : Peca) (hp : pilhaBemFormada p) :
    (push p pc = some (0, p) ∧ p.topo = 2) ∨
    (∃ p1, push p pc = some (1, p1) ∧ pilhaBemFormada p1) := by
  by_cases h : p.topo = 2
  · exact Or.inl ⟨push_cheia p pc (by omega), h⟩
  · refine Or.inr ⟨_, push_livre p pc hp.1 (by have := hp.2; omega), ?_⟩
    have := hp.1
    have := hp.2
    simp only [pilhaBemFormada]
    omega

theorem pop_bemFormada (p : Pilha) (hp : pilhaBemFormada p) :
    ∃ x p1, pop p = some (x, p1) ∧ pilhaBemFormada p1 := by
  by_cases h : p.topo = -1
  · exact ⟨_, _, pop_vazia p h, hp⟩
  · refine ⟨_, _, pop_ocupada p (by have := hp.1; omega) hp.2, ?_⟩
    have := hp.1
    have := hp.2
    simp only [pilhaBemFormada]
    omega

/-- Every menu choice is defined on a well-formed session and keeps it well formed,
provided an undo is only chosen after a save. -/
theorem executarOpcao_bemFormada (opcao : Int) (r : Nat) (s : Sessao) (salvo : Bool)
    (h : sessaoBemFormada salvo s) (hd : opcao = 5 → salvo = true) :
    ∃ s1, executarOpcao opcao r s = some s1 ∧
      sessaoBemFormada (salvo || opcaoSalva opcao) s1 := by
  obtain ⟨hf, hp, hu⟩ := h
  have hsalvo := salvar_bemFormado s.ultimo s.fila s.pilha hf hp
  by_cases h1 : opcao = 1
  · obtain ⟨x, f1, hj, hf1, -⟩ := jogarPeca_bemFormada s.fila r hf
    refine ⟨{ fila := f1, pilha := s.pilha, ultimo := salvarEstado s.ultimo s.fila s.pilha },
      ?_, hf1, hp, fun _ => hsalvo⟩
    simp only [executarOpcao, h1, if_true, opcaoJogar, hj, Option.map_some']
  by_cases h2 : opcao = 2
  · have hl := lerEm_casa s.fila.fila s.fila.inicio s.fila.inicio (by have := hf.1; omega)
    rcases push_bemFormada s.pilha (s.fila.fila (casa s.fila.inicio)) hp with
      ⟨hpu, -⟩ | ⟨p1, hpu, hp1⟩
    · refine ⟨{ fila := s.fila, pilha := s.pilha, ultimo := salvarEstado s.ultimo s.fila s.pilha },
        ?_, hf, hp, fun _ => hsalvo⟩
      simp [executarOpcao, h2, opcaoReservar, hl, hpu]
    · obtain ⟨x, f1, hj, hf1, -⟩ := jogarPeca_bemFormada s.fila r hf
      refine ⟨{ fila := f1, pilha := p1, ultimo := salvarEstado s.ultimo s.fila s.pilha },
        ?_, hf1, hp1, fun _ => hsalvo⟩
      simp [executarOpcao, h2, opcaoReservar, hl, hpu, hj]
  by_cases h3 : opcao = 3
  · obtain ⟨x, p1, hpo, hp1⟩ := pop_bemFormada s.pilha hp
    refine ⟨{ fila := s.fila, pilha := p1, ultimo := salvarEstado s.ultimo s.fila s.pilha },
      ?_, hf, hp1, fun _ => hsalvo⟩
    simp [executarOpcao, h3, opcaoUsar, hpo]
  by_cases h4 : opcao = 4
  · obtain ⟨f1, p1, ht, hf1, hp1⟩ := trocar_bemFormada s.fila s.pilha hf hp
    refine ⟨{ fila := f1, pilha := p1, ultimo := salvarEstado s.ultimo s.fila s.pilha },
      ?_, hf1, hp1, fun _ => hsalvo⟩
    simp [executarOpcao, h4, opcaoTrocar, ht]
  by_cases h5 : opcao = 5
  · have hu1 := hu (hd h5)
    refine ⟨opcaoDesfazer s, ?_, ⟨hu1.1, hu1.2.1, hu1.2.2.1⟩, hu1.2.2.2, fun _ => hu1⟩
    simp [executarOpcao, h5]
  by_cases h6 : opcao = 6
  · obtain ⟨f1, p1, ht, hf1, hp1⟩ := inverter_bemFormada s.fila s.pilha hf hp
    refine ⟨{ fila := f1, pilha := p1, ultimo := salvarEstado s.ultimo s.fila s.pilha },
      ?_, hf1, hp1, fun _ => hsalvo⟩
    simp [executarOpcao, h6, opcaoInverter, ht]
  · refine ⟨s, by simp only [executarOpcao, h1, h2, h3, h4, h5, h6, if_false], hf, hp, ?_⟩
    have : opcaoSalva opcao = false := by
      simp only [opcaoSalva, h1, h2, h3, h4, h6, or_self, decide_False]
    simpa [this] using hu

/-- The menu loop is defined on every list of choices in which undo comes only after
a save, and it ends in a well-formed session. -/
theorem mainLaco_bemFormada (entradas : List (Int × Nat)) :
    ∀ (s : Sessao) (salvo : Bool), sessaoBemFormada salvo s →
      desfazerAposSalvar salvo entradas = true →
      ∃ s1 salvo1, mainLaco s entradas = some s1 ∧ sessaoBemFormada salvo1 s1 := by
  induction entradas with
  | nil => intro s salvo h _; exact ⟨s, salvo, rfl, h⟩
  | cons e resto ih =>
    intro s salvo h hv
    obtain ⟨opcao, r⟩ := e
    have hd : opcao = 5 → salvo = true := by
      intro h5
      simp only [desfazerAposSalvar, h5, if_true, Bool.and_eq_true] at hv
      exact hv.1
    obtain ⟨s1, he, h1⟩ := executarOpcao_bemFormada opcao r s salvo h hd
    by_cases h0 : opcao = 0
    · refine ⟨s1, _, ?_, h1⟩
      simp only [mainLaco, he]
      simp only [h0, if_true]
    · have hv1 : desfazerAposSalvar (salvo || opcaoSalva opcao) resto = true := by
        by_cases h5 : opcao = 5
        · simp only [desfazerAposSalvar, h5, if_true, Bool.and_eq_true] at hv
          have e5 : opcaoSalva 5 = false := by decide
          rw [h5, e5, Bool.or_false]
          exact hv.2
        · simpa only [desfazerAposSalvar, h5, if_false] using hv
      obtain ⟨s2, salvo2, hl, h2⟩ := ih s1 _ h1 hv1
      exact ⟨s2, salvo2, by simp only [mainLaco, he, h0, if_false, hl], h2⟩

/-- C2: from `inicializarFila` and `inicializarPilha`, after any sequence of menu
choices in which undo is only chosen after at least one save, `main` is defined and
the session satisfies `0 ≤ fila.tamanho ≤ 5` and `-1 ≤ pilha.topo ≤ 2`. -/
theorem main_limites (lixoF : Fila) (lixoP : Pilha) (lixoU : Estado) (rnd : Nat → Nat)
    (entradas : List (Int × Nat)) (h : desfazerAposSalvar false entradas = true) :
    ∃ s, main lixoF lixoP lixoU rnd entradas = some s ∧
      (0 ≤ s.fila.tamanho ∧ s.fila.tamanho ≤ 5) ∧
      (-1 ≤ s.pilha.topo ∧ s.pilha.topo ≤ 2) := by
  have h0 : sessaoBemFormada false
      { fila := { fila := fun k => (gerarPeca (rnd k) ((k : Nat) + 1)).1,
                  inicio := 0, fim := 0, tamanho := 5, contadorID := 6 },
        pilha := inicializarPilha lixoP, ultimo := lixoU } := by
    refine ⟨⟨⟨by simp, by simp⟩, ⟨by simp, by simp⟩, by simp⟩, ?_, ?_⟩
    · simp [pilhaBemFormada, inicializarPilha]
    · intro e
      exact absurd e (by decide)
  obtain ⟨s1, salvo1, hl, h1⟩ := mainLaco_bemFormada entradas _ false h0 h
  exact ⟨s1, by simp only [main, inicializarFila_eq, hl], h1.1.2.1, h1.2.1⟩

/-- Witness of `main_limites` on a session that uses every menu choice. -/
theorem main_limites_witness :
    desfazerAposSalvar false [(2, 3), (6, 1), (1, 0), (5, 0), (4, 2), (3, 0), (7, 0), (0, 0)]
      = true ∧
    ∃ s, main filaExemplo pilhaExemplo sessaoExemplo.ultimo (fun i => i)
        [(2, 3), (6, 1), (1, 0), (5, 0), (4, 2), (3, 0), (7, 0), (0, 0)] = some s ∧
      (0 ≤ s.fila.tamanho ∧ s.fila.tamanho ≤ 5) ∧
      (-1 ≤ s.pilha.topo ∧ s.pilha.topo ≤ 2) :=
  ⟨by decide, main_limites filaExemplo pilhaExemplo sessaoExemplo.ultimo (fun i => i) _
    (by decide)⟩

/-- C10 (counterexample): in the session reached from the initialisation by reserving
twice the queue shows `T3 L4 J5 S6 Z7` and the stack `I1 O2`, so `n = 2`.  After
`inverterFilaPilha` the queue front block holds the stack pieces from the top downwards,
but the old queue front `T3` is in `pilha[0]` and `pilha[topo]` holds the second queue
piece `L4`: for `i = 0` the stack slot `topo - i` does not hold the old `i`-th live
element of the queue. -/
theorem inverter_topo_divergente :
    ∃ s, main filaExemplo pilhaExemplo sessaoExemplo.ultimo (fun i => i) [(2, 5), (2, 6)]
        = some s ∧
      mostrarFila s.fila = some [⟨'T', 3⟩, ⟨'L', 4⟩, ⟨'J', 5⟩, ⟨'S', 6⟩, ⟨'Z', 7⟩] ∧
      mostrarPilha s.pilha = some [⟨'I', 1⟩, ⟨'O', 2⟩] ∧
      inverterQtd s.fila s.pilha = 2 ∧
      ∃ f1 p1, inverterFilaPilha s.fila s.pilha = some (f1, p1) ∧
        mostrarFila f1 = some [⟨'O', 2⟩, ⟨'I', 1⟩, ⟨'J', 5⟩, ⟨'S', 6⟩, ⟨'Z', 7⟩] ∧
        mostrarPilha p1 = some [⟨'T', 3⟩, ⟨'L', 4⟩] ∧
        lerEm s.fila.fila (modI (addI s.fila.inicio 0) TAM_FILA) = some ⟨'T', 3⟩ ∧
        lerEm p1.pilha (subI s.pilha.topo 0) = some ⟨'L', 4⟩ ∧
        lerEm p1.pilha (subI s.pilha.topo 0) ≠
          lerEm s.fila.fila (modI (addI s.fila.inicio 0) TAM_FILA) := by
  refine ⟨_, rfl, ?_, ?_, ?_, ?_⟩
  · decide
  · decide
  · decide
  · refine ⟨_, _, rfl, ?_, ?_, ?_, ?_, ?_⟩ <;> decide

/-- C10 (amended): with `n = min(3, tamanho, topo + 1)`, for each `i < n` the queue slot
`(inicio + i) mod 5` holds afterwards the old `pilha[topo - i]`, and the old `i`-th live
element of the queue is afterwards in `pilha[i]`: the reads at the index expressions of
the source succeed and agree. -/
theorem inverter_troca_por_baixo (f : Fila) (p : Pilha) (hf : filaBemFormada f)
    (hp : pilhaBemFormada p) :
    inverterQtd f p = min 3 (min f.tamanho (p.topo + 1)) ∧
    ∃ f1 p1, inverterFilaPilha f p = some (f1, p1) ∧
      ∀ i : Nat, (i : Int) < inverterQtd f p →
        (∃ x, lerEm p.pilha (subI p.topo i) = some x ∧
          lerEm f1.fila (modI (addI f.inicio i) TAM_FILA) = some x) ∧
        (∃ y, lerEm f.fila (modI (addI f.inicio i) TAM_FILA) = some y ∧
          lerEm p1.pilha (i : Int) = some y) := by
  obtain ⟨hi, hta, -⟩ := hf
  obtain ⟨hp1, hp2⟩ := hp
  have hq := inverterQtd_eq f p ⟨hp1, hp2⟩
  refine ⟨hq, _, _, inverter_eq f p hi ⟨hp1, hp2⟩, ?_⟩
  intro i hlt
  have hm : modI (addI f.inicio i) TAM_FILA = (f.inicio + i) % 5 :=
    deslocado_eq f.inicio i hi.1 hi.2 (by omega)
  have hs : subI p.topo i = p.topo - i := wrap32_eq _ (by omega) (by omega)
  constructor
  · refine ⟨_, by rw [hs]; exact lerEm_nivel p.pilha _ (by omega) (by omega), ?_⟩
    rw [lerEm_casa _ _ (f.inicio + i) hm]
    simp only
    rw [blocoParaFila_dentro _ _ _ _ _ (by omega) i (by omega)]
  · refine ⟨_, lerEm_casa f.fila _ (f.inicio + i) hm, ?_⟩
    rw [lerEm_nivel _ _ (by omega) (by omega)]
    simp only
    rw [blocoParaPilha_dentro _ _ _ _ (by omega) i (by omega)]

/-- Witness of `inverter_troca_por_baixo` on the example queue and the full stack. -/
theorem inverter_troca_por_baixo_witness :
    filaBemFormada filaExemplo ∧ pilhaBemFormada pilhaCheiaExemplo ∧
    (inverterQtd filaExemplo pilhaCheiaExemplo =
        min 3 (min filaExemplo.tamanho (pilhaCheiaExemplo.topo + 1)) ∧
    ∃ f1 p1, inverterFilaPilha filaExemplo pilhaCheiaExemplo = some (f1, p1) ∧
      ∀ i : Nat, (i : Int) < inverterQtd filaExemplo pilhaCheiaExemplo →
        (∃ x, lerEm pilhaCheiaExemplo.pilha (subI pilhaCheiaExemplo.topo i) = some x ∧
          lerEm f1.fila (modI (addI filaExemplo.inicio i) TAM_FILA) = some x) ∧
        (∃ y, lerEm filaExemplo.fila (modI (addI filaExemplo.inicio i) TAM_FILA) = some y ∧
          lerEm p1.pilha (i : Int) = some y)) :=
  ⟨by decide, by decide,
    inverter_troca_por_baixo filaExemplo pilhaCheiaExemplo (by decide) (by decide)⟩

/-! ## Sizes under block inversion -/

/-- C11 (counterexample): a queue with one live piece and a full stack satisfy the
data-model invariants, yet `inverterFilaPilha` lowers `topo` from 2 to 0. -/
theorem inverter_encolhe_pilha :
    (0 ≤ filaCurtaExemplo.inicio ∧ filaCurtaExemplo.inicio < 5) ∧
    (0 ≤ filaCurtaExemplo.tamanho ∧ filaCurtaExemplo.tamanho ≤ 5) ∧
    (-1 ≤ pilhaCheiaExemplo.topo ∧ pilhaCheiaExemplo.topo ≤ 2) ∧
    ∃ f1 p1, inverterFilaPilha filaCurtaExemplo pilhaCheiaExemplo = some (f1, p1) ∧
      pilhaCheiaExemplo.topo = 2 ∧ p1.topo = 0 ∧
      mostrarPilha pilhaCheiaExemplo = some [⟨'S', 7⟩, ⟨'Z', 8⟩, ⟨'I', 9⟩] ∧
      mostrarPilha p1 = some [⟨'I', 1⟩] := by
  refine ⟨by decide, by decide, by decide, _, _,
    inverter_eq filaCurtaExemplo pilhaCheiaExemplo (by decide) (by decide), ?_, ?_, ?_, ?_⟩ <;>
    decide

/-- C11 (amended): under the data-model invariants `inverterFilaPilha` never changes
`tamanho`, and it leaves `topo` unchanged exactly when `topo + 1 ≤ tamanho`; so both
sizes are unchanged whenever the queue holds at least as many pieces as the stack. -/
theorem inverter_tamanhos (f : Fila) (p : Pilha) (hi : 0 ≤ f.inicio ∧ f.inicio < 5)
    (hta : 0 ≤ f.tamanho ∧ f.tamanho ≤ 5) (ht : -1 ≤ p.topo ∧ p.topo ≤ 2) :
    ∃ f1 p1, inverterFilaPilha f p = some (f1, p1) ∧ f1.tamanho = f.tamanho ∧
      (p1.topo = p.topo ↔ p.topo + 1 ≤ f.tamanho) ∧
      (p.topo + 1 ≤ f.tamanho → f1.tamanho = f.tamanho ∧ p1.topo = p.topo) := by
  have hq := inverterQtd_eq f p ht
  have hs : subI (inverterQtd f p) 1 = inverterQtd f p - 1 :=
    wrap32_eq _ (by omega) (by omega)
  refine ⟨_, _, inverter_eq f p hi ht, rfl, ?_, ?_⟩
  · simp only [hs]
    omega
  · intro h
    refine ⟨rfl, ?_⟩
    simp only [hs]
    omega

/-- Witness of `inverter_tamanhos` on the full example queue and the full stack. -/
theorem inverter_tamanhos_witness :
    (0 ≤ filaExemplo.inicio ∧ filaExemplo.inicio < 5) ∧
    (0 ≤ filaExemplo.tamanho ∧ filaExemplo.tamanho ≤ 5) ∧
    (-1 ≤ pilhaCheiaExemplo.topo ∧ pilhaCheiaExemplo.topo ≤ 2) ∧
    ∃ f1 p1, inverterFilaPilha filaExemplo pilhaCheiaExemplo = some (f1, p1) ∧
      f1.tamanho = filaExemplo.tamanho ∧
      (p1.topo = pilhaCheiaExemplo.topo ↔ pilhaCheiaExemplo.topo + 1 ≤ filaExemplo.tamanho) ∧
      (pilhaCheiaExemplo.topo + 1 ≤ filaExemplo.tamanho →
        f1.tamanho = filaExemplo.tamanho ∧ p1.topo = pilhaCheiaExemplo.topo) :=
  ⟨by decide, by decide, by decide,
    inverter_tamanhos filaExemplo pilhaCheiaExemplo (by decide) (by decide) (by decide)⟩

/-! ## Save and restore -/

/-- C12: `salvarEstado` followed by `restaurarEstado` with no mutation in between gives
back exactly the queue and the stack; and whatever queue `f2` and stack `p2` are live
at restore time, the restored buffer, `inicio`, `fim`, `tamanho` and the whole stack
are those of the time of the save. -/
theorem salvar_restaurar (est : Estado) (f f2 : Fila) (p p2 : Pilha) :
    restaurarEstado (salvarEstado est f p) f p = (f, p) ∧
    (restaurarEstado (salvarEstado est f p) f2 p2).1.fila = f.fila ∧
    (restaurarEstado (salvarEstado est f p) f2 p2).1.inicio = f.inicio ∧
    (restaurarEstado (salvarEstado est f p) f2 p2).1.fim = f.fim ∧
    (restaurarEstado (salvarEstado est f p) f2 p2).1.tamanho = f.tamanho ∧
    (restaurarEstado (salvarEstado est f p) f2 p2).2 = p :=
  ⟨rfl, rfl, rfl, rfl, rfl, rfl⟩

/-- C18 (counterexample): restoring the all-zero snapshot leaves `topo = 0`, not `-1`:
the stack shows one live piece, the zero piece. -/
theorem restaurar_zero_pilha_ocupada :
    (restaurarEstado estadoZero filaExemplo pilhaExemplo).2.topo = 0 ∧
    (restaurarEstado estadoZero filaExemplo pilhaExemplo).2.topo ≠ -1 ∧
    mostrarPilha (restaurarEstado estadoZero filaExemplo pilhaExemplo).2 =
      some [⟨Char.ofNat 0, 0⟩] := by
  refine ⟨rfl, by decide, by decide⟩

/-- C18 (amended): restoring the all-zero snapshot gives an empty queue (`tamanho = 0`,
`inicio = fim = 0`, every buffer slot the zero piece, nothing shown, `contadorID` kept)
and a stack with `topo = 0` whose every slot is the zero piece, that is one live
element, the zero piece. -/
theorem restaurar_zero (f : Fila) (p : Pilha) :
    (restaurarEstado estadoZero f p).1.tamanho = 0 ∧
    (restaurarEstado estadoZero f p).1.inicio = 0 ∧
    (restaurarEstado estadoZero f p).1.fim = 0 ∧
    (∀ j : Fin TAM_FILA, (restaurarEstado estadoZero f p).1.fila j = ⟨Char.ofNat 0, 0⟩) ∧
    mostrarFila (restaurarEstado estadoZero f p).1 = some [] ∧
    (restaurarEstado estadoZero f p).1.contadorID = f.contadorID ∧
    (restaurarEstado estadoZero f p).2.topo = 0 ∧
    (∀ j : Fin TAM_PILHA, (restaurarEstado estadoZero f p).2.pilha j = ⟨Char.ofNat 0, 0⟩) ∧
    mostrarPilha (restaurarEstado estadoZero f p).2 = some [⟨Char.ofNat 0, 0⟩] := by
  refine ⟨rfl, rfl, rfl, fun _ => rfl, rfl, rfl, rfl, fun _ => rfl, ?_⟩
  show mostrarPilha estadoZero.pilha = some [⟨Char.ofNat 0, 0⟩]
  decide

/-! ## Block inversion: layout and bounds -/

/-- C14: with `n = min(3, tamanho, topo + 1)`, after `inverterFilaPilha` the queue slot
`(inicio + i) mod 5` holds the old `pilha[topo - i]` and `pilha[i]` holds the old `i`-th
live queue element for each `i < n`, the new `topo` is `n - 1`, and `inicio`, `fim`,
`tamanho`, `contadorID` and every queue slot outside the first `n` live positions are
unchanged. -/
theorem inverter_bloco (f : Fila) (p : Pilha) (hf : filaBemFormada f)
    (hp : pilhaBemFormada p) :
    inverterQtd f p = min 3 (min f.tamanho (p.topo + 1)) ∧
    ∃ f1 p1, inverterFilaPilha f p = some (f1, p1) ∧
      (∀ i : Nat, (i : Int) < inverterQtd f p →
        f1.fila (casa (f.inicio + i)) = p.pilha (nivel (p.topo - i))) ∧
      (∀ i : Nat, (i : Int) < inverterQtd f p →
        p1.pilha (nivel i) = f.fila (casa (f.inicio + i))) ∧
      p1.topo = inverterQtd f p - 1 ∧
      f1.inicio = f.inicio ∧ f1.fim = f.fim ∧ f1.tamanho = f.tamanho ∧
      f1.contadorID = f.contadorID ∧
      (∀ j : Fin TAM_FILA, (∀ k : Nat, (k : Int) < inverterQtd f p → j ≠ casa (f.inicio + k)) →
        f1.fila j = f.fila j) := by
  obtain ⟨hi, hta, -⟩ := hf
  have hq := inverterQtd_eq f p hp
  have hs : subI (inverterQtd f p) 1 = inverterQtd f p - 1 := by
    have := hp.1
    exact wrap32_eq _ (by omega) (by omega)
  refine ⟨hq, _, _, inverter_eq f p hi hp, ?_, ?_, hs, rfl, rfl, rfl, rfl, ?_⟩
  · intro i hi2
    exact blocoParaFila_dentro _ _ _ _ _ (by omega) i (by omega)
  · intro i hi2
    exact blocoParaPilha_dentro _ _ _ _ (by omega) i (by omega)
  · intro j hj
    exact blocoParaFila_fora _ _ _ _ _ j (fun k hk => hj k (by omega))

/-- Witness of `inverter_bloco` on the example queue and the stack with two pieces. -/
theorem inverter_bloco_witness :
    filaBemFormada filaExemplo ∧ pilhaBemFormada pilhaExemplo ∧
    (inverterQtd filaExemplo pilhaExemplo =
        min 3 (min filaExemplo.tamanho (pilhaExemplo.topo + 1)) ∧
    ∃ f1 p1, inverterFilaPilha filaExemplo pilhaExemplo = some (f1, p1) ∧
      (∀ i : Nat, (i : Int) < inverterQtd filaExemplo pilhaExemplo →
        f1.fila (casa (filaExemplo.inicio + i)) =
          pilhaExemplo.pilha (nivel (pilhaExemplo.topo - i))) ∧
      (∀ i : Nat, (i : Int) < inverterQtd filaExemplo pilhaExemplo →
        p1.pilha (nivel i) = filaExemplo.fila (casa (filaExemplo.inicio + i))) ∧
      p1.topo = inverterQtd filaExemplo pilhaExemplo - 1 ∧
      f1.inicio = filaExemplo.inicio ∧ f1.fim = filaExemplo.fim ∧
      f1.tamanho = filaExemplo.tamanho ∧
      f1.contadorID = filaExemplo.contadorID ∧
      (∀ j : Fin TAM_FILA,
        (∀ k : Nat, (k : Int) < inverterQtd filaExemplo pilhaExemplo →
          j ≠ casa (filaExemplo.inicio + k)) →
        f1.fila j = filaExemplo.fila j)) :=
  ⟨by decide, by decide, inverter_bloco filaExemplo pilhaExemplo (by decide) (by decide)⟩

/-- C19: under the data-model invariants every array access of `inverterFilaPilha` is
in bounds: the function is defined, and for each loop index `i < qtd` we have `i < 3`
(`tempFila[i]`, `pilha[i]`), `0 ≤ (inicio + i) % 5 < 5` (`fila[idx]`) and
`0 ≤ topo - i ≤ 2` (`pilha[topo - i]`), so each single read and write succeeds. -/
theorem inverter_dentro_dos_limites (f : Fila) (p : Pilha)
    (hi : 0 ≤ f.inicio ∧ f.inicio < 5) (hta : 0 ≤ f.tamanho ∧ f.tamanho ≤ 5)
    (ht : -1 ≤ p.topo ∧ p.topo ≤ 2) :
    (∃ f1 p1, inverterFilaPilha f p = some (f1, p1)) ∧
    ∀ i : Nat, (i : Int) < inverterQtd f p →
      i < 3 ∧
      (0 ≤ modI (addI f.inicio i) TAM_FILA ∧ modI (addI f.inicio i) TAM_FILA < 5) ∧
      (0 ≤ subI p.topo i ∧ subI p.topo i ≤ 2) ∧
      (∃ x, lerEm f.fila (modI (addI f.inicio i) TAM_FILA) = some x) ∧
      (∃ y, lerEm p.pilha (subI p.topo i) = some y) ∧
      (∀ (a : Fin TAM_FILA → Peca) (v : Peca),
        ∃ a1, gravarEm a (modI (addI f.inicio i) TAM_FILA) v = some a1) ∧
      (∀ (b : Fin TAM_PILHA → Peca) (v : Peca), ∃ b1, gravarEm b (i : Int) v = some b1) ∧
      (∀ (t : Fin 3 → Option Peca) (v : Option Peca),
        ∃ t1, gravarEm t (i : Int) v = some t1) := by
  have hq := inverterQtd_eq f p ht
  refine ⟨⟨_, _, inverter_eq f p hi ht⟩, ?_⟩
  intro i hlt
  have hi3 : i < 3 := by omega
  have hm : modI (addI f.inicio i) TAM_FILA = (f.inicio + i) % 5 :=
    deslocado_eq f.inicio i hi.1 hi.2 (by omega)
  have hs : subI p.topo i = p.topo - i := wrap32_eq _ (by omega) (by omega)
  refine ⟨hi3, ?_, ?_, ?_, ?_, ?_, ?_, ?_⟩
  · rw [hm]; omega
  · rw [hs]; omega
  · exact ⟨_, lerEm_casa f.fila _ (f.inicio + i) hm⟩
  · rw [hs]; exact ⟨_, lerEm_nivel p.pilha _ (by omega) (by omega)⟩
  · intro a v; exact ⟨_, gravarEm_casa a _ (f.inicio + i) v hm⟩
  · intro b v; exact ⟨_, gravarEm_nivel b _ v (by omega) (by omega)⟩
  · intro t v; exact ⟨_, gravarEm_nivel t _ v (by omega) (by omega)⟩

/-- Witness of `inverter_dentro_dos_limites` on the example queue and the full stack. -/
theorem inverter_dentro_dos_limites_witness :
    (0 ≤ filaExemplo.inicio ∧ filaExemplo.inicio < 5) ∧
    (0 ≤ filaExemplo.tamanho ∧ filaExemplo.tamanho ≤ 5) ∧
    (-1 ≤ pilhaCheiaExemplo.topo ∧ pilhaCheiaExemplo.topo ≤ 2) ∧
    ((∃ f1 p1, inverterFilaPilha filaExemplo pilhaCheiaExemplo = some (f1, p1)) ∧
    ∀ i : Nat, (i : Int) < inverterQtd filaExemplo pilhaCheiaExemplo →
      i < 3 ∧
      (0 ≤ modI (addI filaExemplo.inicio i) TAM_FILA ∧
        modI (addI filaExemplo.inicio i) TAM_FILA < 5) ∧
      (0 ≤ subI pilhaCheiaExemplo.topo i ∧ subI pilhaCheiaExemplo.topo i ≤ 2) ∧
      (∃ x, lerEm filaExemplo.fila (modI (addI filaExemplo.inicio i) TAM_FILA) = some x) ∧
      (∃ y, lerEm pilhaCheiaExemplo.pilha (subI pilhaCheiaExemplo.topo i) = some y) ∧
      (∀ (a : Fin TAM_FILA → Peca) (v : Peca),
        ∃ a1, gravarEm a (modI (addI filaExemplo.inicio i) TAM_FILA) v = some a1) ∧
      (∀ (b : Fin TAM_PILHA → Peca) (v : Peca), ∃ b1, gravarEm b (i : Int) v = some b1) ∧
      (∀ (t : Fin 3 → Option Peca) (v : Option Peca),
        ∃ t1, gravarEm t (i : Int) v = some t1)) :=
  ⟨by decide, by decide, by decide,
    inverter_dentro_dos_limites filaExemplo pilhaCheiaExemplo (by decide) (by decide)
      (by decide)⟩

/-! ## Failure paths -/

/-- C15: reserve on a full stack has no effect on queue and stack: with a well-formed
queue and `topo = 2`, menu case 2 is defined and leaves the stack and the whole queue
(buffer, `inicio`, `fim`, `tamanho`, `contadorID`) unchanged. -/
theorem reservar_pilha_cheia (s : Sessao) (r : Nat) (hf : filaBemFormada s.fila)
    (ht : s.pilha.topo = 2) :
    ∃ s1, opcaoReservar r s = some s1 ∧ s1.pilha = s.pilha ∧ s1.fila = s.fila ∧
      push s.pilha (s.fila.fila (casa s.fila.inicio)) = some (0, s.pilha) := by
  have hl := lerEm_casa s.fila.fila s.fila.inicio s.fila.inicio (by have := hf.1; omega)
  have hpu := push_cheia s.pilha (s.fila.fila (casa s.fila.inicio)) (by omega)
  refine ⟨{ fila := s.fila, pilha := s.pilha,
            ultimo := salvarEstado s.ultimo s.fila s.pilha }, ?_, rfl, rfl, hpu⟩
  simp [opcaoReservar, hl, hpu]

/-- Witness of `reservar_pilha_cheia` on a session with a full stack. -/
theorem reservar_pilha_cheia_witness :
    filaBemFormada sessaoCheiaExemplo.fila ∧ sessaoCheiaExemplo.pilha.topo = 2 ∧
    ∃ s1, opcaoReservar 4 sessaoCheiaExemplo = some s1 ∧
      s1.pilha = sessaoCheiaExemplo.pilha ∧ s1.fila = sessaoCheiaExemplo.fila ∧
      push sessaoCheiaExemplo.pilha
        (sessaoCheiaExemplo.fila.fila (casa sessaoCheiaExemplo.fila.inicio)) =
        some (0, sessaoCheiaExemplo.pilha) :=
  ⟨by decide, by decide, reservar_pilha_cheia sessaoCheiaExemplo 4 (by decide) (by decide)⟩

theorem addI_um_ne (c : Int) : addI c 1 ≠ c := by
  unfold addI wrap32
  omega

/-- C16: `jogarPeca` fails exactly when `tamanho = 0`: it returns `{ '-', 0 }` with the
whole queue unchanged if and only if `tamanho = 0`; on a well-formed queue it is always
defined, and on a non-empty queue the piece it returns is the one stored in the
queue slot `inicio`, while the queue does change. -/
theorem jogarPeca_falha (f : Fila) (r : Nat) (hf : filaBemFormada f) :
    (jogarPeca f r = some (pecaVazia, f) ↔ f.tamanho = 0) ∧
    ∃ p f1, jogarPeca f r = some (p, f1) ∧
      (f.tamanho = 0 → p = pecaVazia ∧ f1 = f) ∧
      (f.tamanho ≠ 0 → lerEm f.fila f.inicio = some p ∧ (∃ j : Fin TAM_FILA, p = f.fila j) ∧
        f1 ≠ f) := by
  obtain ⟨hi, hta, hfim⟩ := hf
  by_cases h0 : f.tamanho = 0
  · have hj := jogarPeca_vazia f r h0
    exact ⟨⟨fun _ => h0, fun _ => hj⟩, _, _, hj, fun _ => ⟨rfl, rfl⟩, fun hn => absurd h0 hn⟩
  · have hj := jogarPeca_eq f r hi (by omega) (by omega)
    have hne : ∀ g : Fila, g.contadorID = addI f.contadorID 1 → g ≠ f := by
      intro g hg e
      rw [e] at hg
      exact addI_um_ne _ hg.symm
    refine ⟨⟨?_, fun e => absurd e h0⟩, _, _, hj, fun e => absurd e h0, fun _ => ?_⟩
    · intro e
      rw [hj] at e
      have e2 := congrArg (fun x => x.2) (Option.some.inj e)
      exact absurd e2 (hne _ rfl)
    · exact ⟨lerEm_casa f.fila f.inicio f.inicio (by omega), ⟨_, rfl⟩, hne _ rfl⟩

/-- Witness of `jogarPeca_falha` on an empty queue. -/
theorem jogarPeca_falha_witness :
    filaBemFormada filaVaziaExemplo ∧
    ((jogarPeca filaVaziaExemplo 2 = some (pecaVazia, filaVaziaExemplo) ↔
        filaVaziaExemplo.tamanho = 0) ∧
    ∃ p f1, jogarPeca filaVaziaExemplo 2 = some (p, f1) ∧
      (filaVaziaExemplo.tamanho = 0 → p = pecaVazia ∧ f1 = filaVaziaExemplo) ∧
      (filaVaziaExemplo.tamanho ≠ 0 →
        lerEm filaVaziaExemplo.fila filaVaziaExemplo.inicio = some p ∧
        (∃ j : Fin TAM_FILA, p = filaVaziaExemplo.fila j) ∧ f1 ≠ filaVaziaExemplo)) :=
  ⟨by decide, jogarPeca_falha filaVaziaExemplo 2 (by decide)⟩

/-! ## Repeated block inversion -/

/-- Two inversions in a row, when the queue holds at least as many pieces as the stack:
the first `topo + 1` queue positions and the stack slots `0..topo` are each reversed in
place and nothing else changes. -/
theorem inverter_duas_vezes (f : Fila) (p : Pilha) (hf : filaBemFormada f)
    (hp : pilhaBemFormada p) (h : p.topo + 1 ≤ f.tamanho) :
    ∃ f2 p2, inverterVezes 2 f p = some (f2, p2) ∧
      (∀ k : Nat, (k : Int) ≤ p.topo →
        f2.fila (casa (f.inicio + k)) = f.fila (casa (f.inicio + (p.topo - k))) ∧
        p2.pilha (nivel k) = p.pilha (nivel (p.topo - k))) ∧
      (∀ j : Fin TAM_FILA, (∀ k : Nat, (k : Int) ≤ p.topo → j ≠ casa (f.inicio + k)) →
        f2.fila j = f.fila j) ∧
      (∀ j : Fin TAM_PILHA, p.topo < ((j : Nat) : Int) → p2.pilha j = p.pilha j) ∧
      p2.topo = p.topo ∧ f2.inicio = f.inicio ∧ f2.fim = f.fim ∧
      f2.tamanho = f.tamanho ∧ f2.contadorID = f.contadorID := by
  obtain ⟨hi, hta, hfim⟩ := hf
  obtain ⟨hp1, hp2⟩ := hp
  have hq := inverterQtd_eq f p ⟨hp1, hp2⟩
  have hqt : inverterQtd f p = p.topo + 1 := by omega
  have hs : subI (inverterQtd f p) 1 = p.topo := by
    rw [hqt]; exact wrap32_eq _ (by omega) (by omega) |>.trans (by omega)
  have hn : (inverterQtd f p).toNat = (p.topo + 1).toNat := by rw [hqt]
  have e1 := inverter_eq f p hi ⟨hp1, hp2⟩
  rw [hs, hn] at e1
  have e2 := inverter_eq
    { f with fila := blocoParaFila f.fila p.pilha f.inicio p.topo (p.topo + 1).toNat }
    { pilha := blocoParaPilha f.fila p.pilha f.inicio (p.topo + 1).toNat, topo := p.topo }
    hi ⟨hp1, hp2⟩
  have hq2 : inverterQtd
      { f with fila := blocoParaFila f.fila p.pilha f.inicio p.topo (p.topo + 1).toNat }
      { pilha := blocoParaPilha f.fila p.pilha f.inicio (p.topo + 1).toNat, topo := p.topo }
      = p.topo + 1 := by
    rw [inverterQtd_eq
      { f with fila := blocoParaFila f.fila p.pilha f.inicio p.topo (p.topo + 1).toNat }
      { pilha := blocoParaPilha f.fila p.pilha f.inicio (p.topo + 1).toNat, topo := p.topo }
      ⟨hp1, hp2⟩]
    simp only
    omega
  have hs2 : subI (p.topo + 1) 1 = p.topo :=
    (wrap32_eq _ (by omega) (by omega)).trans (by omega)
  rw [hq2, hs2] at e2
  simp only at e2
  have e12 : inverterVezes 2 f p = some
      ({ f with
          fila := blocoParaFila
                    (blocoParaFila f.fila p.pilha f.inicio p.topo (p.topo + 1).toNat)
                    (blocoParaPilha f.fila p.pilha f.inicio (p.topo + 1).toNat)
                    f.inicio p.topo (p.topo + 1).toNat },
       { pilha := blocoParaPilha
                    (blocoParaFila f.fila p.pilha f.inicio p.topo (p.topo + 1).toNat)
                    (blocoParaPilha f.fila p.pilha f.inicio (p.topo + 1).toNat)
                    f.inicio (p.topo + 1).toNat,
         topo := p.topo }) := by
    simp only [inverterVezes, e1, e2]
  refine ⟨_, _, e12, ?_, ?_, ?_, rfl, rfl, rfl, rfl, rfl⟩
  · intro k hk
    constructor
    · simp only
      rw [blocoParaFila_dentro _ _ _ _ _ (by omega) k (by omega)]
      have e : p.topo - (k : Int) = (((p.topo - k).toNat : Nat) : Int) := by omega
      rw [e, blocoParaPilha_dentro _ _ _ _ (by omega) _ (by omega)]
    · simp only
      rw [blocoParaPilha_dentro _ _ _ _ (by omega) k (by omega),
        blocoParaFila_dentro _ _ _ _ _ (by omega) k (by omega)]
  · intro j hj
    simp only
    rw [blocoParaFila_fora _ _ _ _ _ j (fun k hk => hj k (by omega)),
      blocoParaFila_fora _ _ _ _ _ j (fun k hk => hj k (by omega))]
  · intro j hj
    simp only
    rw [blocoParaPilha_fora _ _ _ _ j (by omega), blocoParaPilha_fora _ _ _ _ j (by omega)]

/-- Calling `inverterFilaPilha` `m + n` times is calling it `m` times and then `n` times. -/
theorem inverterVezes_add (m n : Nat) : ∀ (f : Fila) (p : Pilha),
    inverterVezes (m + n) f p =
      (inverterVezes m f p).bind (fun r => inverterVezes n r.1 r.2) := by
  induction m with
  | zero => intro f p; simp [inverterVezes]
  | succ m ih =>
    intro f p
    rw [show m + 1 + n = (m + n) + 1 by omega]
    simp only [inverterVezes]
    cases inverterFilaPilha f p with
    | none => rfl
    | some r => exact ih r.1 r.2

/-- C20: when the queue holds at least as many pieces as the stack (`topo + 1 ≤ tamanho`),
two calls of `inverterFilaPilha` reverse in place the first `topo + 1` queue positions and
the stack slots `0..topo` and change nothing else, four calls give back exactly the
original queue and stack, and two calls do not restore the original in general (shown
on the example queue and stack). -/
theorem inverter_quatro_vezes (f : Fila) (p : Pilha) (hf : filaBemFormada f)
    (hp : pilhaBemFormada p) (h : p.topo + 1 ≤ f.tamanho) :
    (∃ f2 p2, inverterVezes 2 f p = some (f2, p2) ∧
      (∀ k : Nat, (k : Int) ≤ p.topo →
        f2.fila (casa (f.inicio + k)) = f.fila (casa (f.inicio + (p.topo - k))) ∧
        p2.pilha (nivel k) = p.pilha (nivel (p.topo - k))) ∧
      (∀ j : Fin TAM_FILA, (∀ k : Nat, (k : Int) ≤ p.topo → j ≠ casa (f.inicio + k)) →
        f2.fila j = f.fila j) ∧
      (∀ j : Fin TAM_PILHA, p.topo < ((j : Nat) : Int) → p2.pilha j = p.pilha j) ∧
      p2.topo = p.topo ∧ f2.inicio = f.inicio ∧ f2.fim = f.fim ∧
      f2.tamanho = f.tamanho ∧ f2.contadorID = f.contadorID) ∧
    inverterVezes 4 f p = some (f, p) ∧
    (∃ g2 q2, inverterVezes 2 filaExemplo pilhaExemplo = some (g2, q2) ∧
      mostrarFila filaExemplo = some [⟨'I', 1⟩, ⟨'O', 2⟩, ⟨'T', 3⟩, ⟨'L', 4⟩, ⟨'J', 5⟩] ∧
      mostrarFila g2 = some [⟨'O', 2⟩, ⟨'I', 1⟩, ⟨'T', 3⟩, ⟨'L', 4⟩, ⟨'J', 5⟩] ∧
      mostrarPilha pilhaExemplo = some [⟨'S', 7⟩, ⟨'Z', 8⟩] ∧
      mostrarPilha q2 = some [⟨'Z', 8⟩, ⟨'S', 7⟩]) := by
  have h2 := inverter_duas_vezes f p hf hp h
  refine ⟨h2, ?_, ⟨_, _, rfl, by decide, by decide, by decide, by decide⟩⟩
  obtain ⟨f2, p2, e2, hb2, ho2, hs2, ht2, hi2, hfm2, hta2, hc2⟩ := h2
  have hf2 : filaBemFormada f2 := by
    unfold filaBemFormada; rw [hi2, hfm2, hta2]; exact hf
  have hp2 : pilhaBemFormada p2 := by
    unfold pilhaBemFormada; rw [ht2]; exact hp
  obtain ⟨f4, p4, e4, hb4, ho4, hs4, ht4, hi4, hfm4, hta4, hc4⟩ :=
    inverter_duas_vezes f2 p2 hf2 hp2 (by rw [ht2, hta2]; exact h)
  have e : inverterVezes 4 f p = some (f4, p4) := by
    rw [show (4 : Nat) = 2 + 2 by rfl, inverterVezes_add, e2]
    exact e4
  obtain ⟨hp1, hp3⟩ := hp
  have hfila : f4.fila = f.fila := by
    funext j
    by_cases hj : ∃ k : Nat, (k : Int) ≤ p.topo ∧ j = casa (f.inicio + k)
    · obtain ⟨k, hk, rfl⟩ := hj
      have e1 := (hb4 k (by rw [ht2]; exact hk)).1
      rw [hi2, ht2] at e1
      have ek : p.topo - (k : Int) = (((p.topo - k).toNat : Nat) : Int) := by omega
      rw [e1, ek, (hb2 _ (by omega)).1]
      congr 2
      omega
    · have hn : ∀ k : Nat, (k : Int) ≤ p.topo → j ≠ casa (f.inicio + k) :=
        fun k hk e => hj ⟨k, hk, e⟩
      rw [ho4 j (by rw [ht2, hi2]; exact hn), ho2 j hn]
  have hpil : p4.pilha = p.pilha := by
    funext j
    by_cases hj : ((j : Nat) : Int) ≤ p.topo
    · have ej : j = nivel ((j : Nat) : Int) := by
        apply Fin.ext
        simp only [nivel]
        have := j.isLt
        omega
      have e1 := (hb4 (j : Nat) (by rw [ht2]; exact hj)).2
      rw [ht2] at e1
      have ek : p.topo - ((j : Nat) : Int) = (((p.topo - (j : Nat)).toNat : Nat) : Int) := by
        omega
      rw [ej, e1, ek, (hb2 _ (by omega)).2]
      congr 2
      omega
    · rw [hs4 j (by rw [ht2]; omega), hs2 j (by omega)]
  rw [e]
  obtain ⟨a4, i4, m4, t4, c4⟩ := f4
  obtain ⟨b4, u4⟩ := p4
  obtain ⟨a, i, m, t, c⟩ := f
  obtain ⟨b, u⟩ := p
  simp only at hfila hpil ht4 hi4 hfm4 hta4 hc4 ht2 hi2 hfm2 hta2 hc2
  subst hfila hpil
  rw [ht4, hi4, hfm4, hta4, hc4, ht2, hi2, hfm2, hta2, hc2]

/-- Witness of `inverter_quatro_vezes` on the example queue and the full stack. -/
theorem inverter_quatro_vezes_witness :
    filaBemFormada filaExemplo ∧ pilhaBemFormada pilhaCheiaExemplo ∧
    pilhaCheiaExemplo.topo + 1 ≤ filaExemplo.tamanho ∧
    inverterVezes 4 filaExemplo pilhaCheiaExemplo = some (filaExemplo, pilhaCheiaExemplo) :=
  ⟨by decide, by decide, by decide,
    (inverter_quatro_vezes filaExemplo pilhaCheiaExemplo (by decide) (by decide)
      (by decide)).2.1⟩

/-! ## Live pieces -/

theorem idsValidos_perm (c : Int) (l l2 : List Peca) (h : l2.Perm l) (hl : idsValidos c l) :
    idsValidos c l2 :=
  ⟨(List.Perm.nodup_iff (h.map Peca.id)).2 hl.1, fun x hx => hl.2 x (h.mem_iff.1 hx)⟩

theorem idsValidos_sublist (c : Int) (l l2 : List Peca) (h : l2.Sublist l)
    (hl : idsValidos c l) : idsValidos c l2 :=
  ⟨hl.1.sublist (h.map Peca.id), fun x hx => hl.2 x (h.subset hx)⟩

theorem idsValidos_mono (c c2 : Int) (l : List Peca) (h : c ≤ c2) (hl : idsValidos c l) :
    idsValidos c2 l :=
  ⟨hl.1, fun x hx => lt_of_lt_of_le (hl.2 x hx) h⟩

theorem idsValidos_novo (c : Int) (l : List Peca) (x : Peca) (hx : x.id = c)
    (hl : idsValidos c l) : idsValidos (c + 1) (x :: l) := by
  refine ⟨?_, ?_⟩
  · rw [List.map_cons, List.nodup_cons]
    refine ⟨?_, hl.1⟩
    intro hmem
    obtain ⟨y, hy, e⟩ := List.mem_map.1 hmem
    have := hl.2 y hy
    omega
  · intro y hy
    rcases List.mem_cons.1 hy with e | hy
    · rw [e, hx]; omega
    · have := hl.2 y hy
      omega

theorem casa_mais_cinco (x : Int) : casa (x + 5) = casa x := by
  apply Fin.ext
  simp only [casa]
  omega

theorem janela_append (a : Fin TAM_FILA → Peca) (i : Int) (m n : Nat) :
    janela a i (m + n) = janela a i m ++ janela a (i + m) n := by
  induction n with
  | zero => simp [janela]
  | succ n ih =>
    have e : i + (((m + n : Nat)) : Int) = i + m + n := by push_cast; omega
    rw [← Nat.add_assoc, janela_succ_fundo, ih, janela_succ_fundo, List.append_assoc, e]

/-- The queue window after the refill of `jogarPeca` on a full queue. -/
theorem janela_jogar (a : Fin TAM_FILA → Peca) (i : Int) (v : Peca) :
    janela (Function.update a (casa i) v) ((i + 1) % 5) 5 = janela a (i + 1) 4 ++ [v] := by
  rw [janela_emod, janela_succ_fundo, ← casa_mais_cinco i,
    janela_update _ _ _ _ _ (by push_cast; omega) (by omega)]
  congr 2
  have e : i + 1 + ((4 : Nat) : Int) = i + 5 := by push_cast; omega
  rw [e, Function.update_same]

/-- The queue window after `trocarFilaPilha` replaced the front piece. -/
theorem janela_trocar (a : Fin TAM_FILA → Peca) (i : Int) (v : Peca) :
    janela (Function.update a (casa i) v) i 5 = v :: janela a (i + 1) 4 := by
  rw [janela_succ_frente, Function.update_same, ← casa_mais_cinco i,
    janela_update _ _ _ _ _ (by push_cast; omega) (by omega)]

theorem pilhaViva_succ (b : Fin TAM_PILHA → Peca) (t : Int) (h : -1 ≤ t) :
    pilhaViva { pilha := b, topo := t + 1 } =
      pilhaViva { pilha := b, topo := t } ++ [b (nivel (t + 1))] := by
  have e : (t + 1 + 1).toNat = (t + 1).toNat + 1 := by omega
  have e2 : (((t + 1).toNat : Nat) : Int) = t + 1 := by omega
  simp only [pilhaViva, e, List.range_succ, List.map_append, List.map_cons, List.map_nil, e2]

theorem pilhaViva_update (b : Fin TAM_PILHA → Peca) (t x : Int) (v : Peca)
    (h1 : t < x) (h2 : x ≤ 2) :
    pilhaViva { pilha := Function.update b (nivel x) v, topo := t } =
      pilhaViva { pilha := b, topo := t } := by
  simp only [pilhaViva]
  apply List.map_congr_left
  intro k hk
  have hk1 : k < (t + 1).toNat := by simpa using hk
  exact Function.update_noteq
    (nivel_ne _ _ (by omega) (by omega) (by omega) (by omega) (by omega)) _ _

theorem mapM_some_eq {α β : Type} (f : α → Option β) (g : α → β) (l : List α)
    (h : ∀ x ∈ l, f x = some (g x)) : l.mapM f = some (l.map g) := by
  induction l with
  | nil => rfl
  | cons x l ih =>
    rw [List.mapM_cons, h x (List.mem_cons_self x l),
      ih (fun y hy => h y (List.mem_cons_of_mem x hy))]
    rfl

theorem mostrarPilha_eq (p : Pilha) (hp : pilhaBemFormada p) :
    mostrarPilha p = some (pilhaViva p) := by
  obtain ⟨h1, h2⟩ := hp
  unfold mostrarPilha pilhaViva
  apply mapM_some_eq
  intro k hk
  have hk1 : k < (p.topo + 1).toNat := by simpa using hk
  exact lerEm_nivel p.pilha (k : Int) (by omega) (by omega)

/-! ## The full queue is an invariant of the menu loop -/

/-- Closed form of `jogarPeca` on a full queue. -/
theorem jogarPeca_cheia (f : Fila) (r : Nat) (h : filaCheia f) :
    jogarPeca f r = some (f.fila (casa f.inicio), filaAposJogar f r) := by
  obtain ⟨hi, hta, hfim⟩ := h
  have e := jogarPeca_eq f r hi (by omega) (by omega)
  rw [hfim, hta] at e
  exact e

theorem filaAposJogar_cheia (f : Fila) (r : Nat) (h : filaCheia f) :
    filaCheia (filaAposJogar f r) := by
  obtain ⟨hi, hta, hfim⟩ := h
  refine ⟨?_, rfl, rfl⟩
  simp only [filaAposJogar]
  omega

theorem filaCheia_bemFormada (f : Fila) (h : filaCheia f) : filaBemFormada f := by
  obtain ⟨hi, hta, hfim⟩ := h
  refine ⟨hi, by omega, ?_⟩
  rw [hfim, hta]
  omega

/-- Closed form of `inverterFilaPilha` on a full queue: the whole stack is exchanged
with the first `topo + 1` queue positions and `topo` stays. -/
theorem inverter_cheia (f : Fila) (p : Pilha) (h : filaCheia f) (hp : pilhaBemFormada p) :
    inverterFilaPilha f p = some
      ({ f with fila := blocoParaFila f.fila p.pilha f.inicio p.topo (p.topo + 1).toNat },
       { pilha := blocoParaPilha f.fila p.pilha f.inicio (p.topo + 1).toNat,
         topo := p.topo }) := by
  obtain ⟨hi, hta, hfim⟩ := h
  obtain ⟨hp1, hp2⟩ := hp
  have hq := inverterQtd_eq f p ⟨hp1, hp2⟩
  have hqt : inverterQtd f p = p.topo + 1 := by omega
  have hs : subI (inverterQtd f p) 1 = p.topo := by
    rw [hqt]; exact (wrap32_eq _ (by omega) (by omega)).trans (by omega)
  have e1 := inverter_eq f p hi ⟨hp1, hp2⟩
  rw [hs, hqt] at e1
  exact e1

theorem trocar_cheia (f : Fila) (p : Pilha) (hf : filaCheia f) (hp : pilhaBemFormada p) :
    ∃ f1 p1, trocarFilaPilha f p = some (f1, p1) ∧ filaCheia f1 ∧ pilhaBemFormada p1 := by
  by_cases h : p.topo = -1
  · exact ⟨f, p, trocar_vazia f p h, hf, hp⟩
  · exact ⟨_, _, trocar_eq f p hf.1 ⟨by have := hp.1; omega, hp.2⟩, hf, hp⟩

theorem inverter_cheia_bemFormada (f : Fila) (p : Pilha) (hf : filaCheia f)
    (hp : pilhaBemFormada p) :
    ∃ f1 p1, inverterFilaPilha f p = some (f1, p1) ∧ filaCheia f1 ∧ pilhaBemFormada p1 :=
  ⟨_, _, inverter_cheia f p hf hp, hf, hp⟩

/-- Every menu choice is defined on a session with a full queue and keeps the queue
full, provided an undo is only chosen after a save. -/
theorem executarOpcao_cheia (opcao : Int) (r : Nat) (s : Sessao) (salvo : Bool)
    (h : sessaoCheia salvo s) (hd : opcao = 5 → salvo = true) :
    ∃ s1, executarOpcao opcao r s = some s1 ∧
      sessaoCheia (salvo || opcaoSalva opcao) s1 := by
  obtain ⟨hf, hp, hu⟩ := h
  have hsalvo : ((0 ≤ (salvarEstado s.ultimo s.fila s.pilha).inicio ∧
      (salvarEstado s.ultimo s.fila s.pilha).inicio < 5) ∧
      (salvarEstado s.ultimo s.fila s.pilha).tamanho = 5 ∧
      (salvarEstado s.ultimo s.fila s.pilha).fim =
        (salvarEstado s.ultimo s.fila s.pilha).inicio) ∧
      pilhaBemFormada (salvarEstado s.ultimo s.fila s.pilha).pilha := ⟨hf, hp⟩
  have hj := jogarPeca_cheia s.fila r hf
  have hfj := filaAposJogar_cheia s.fila r hf
  by_cases h1 : opcao = 1
  · refine ⟨{ fila := filaAposJogar s.fila r, pilha := s.pilha,
              ultimo := salvarEstado s.ultimo s.fila s.pilha }, ?_, hfj, hp, fun _ => hsalvo⟩
    simp [executarOpcao, h1, opcaoJogar, hj]
  by_cases h2 : opcao = 2
  · have hl := lerEm_casa s.fila.fila s.fila.inicio s.fila.inicio (by have := hf.1; omega)
    rcases push_bemFormada s.pilha (s.fila.fila (casa s.fila.inicio)) hp with
      ⟨hpu, -⟩ | ⟨p1, hpu, hp1⟩
    · refine ⟨{ fila := s.fila, pilha := s.pilha,
                ultimo := salvarEstado s.ultimo s.fila s.pilha }, ?_, hf, hp, fun _ => hsalvo⟩
      simp [executarOpcao, h2, opcaoReservar, hl, hpu]
    · refine ⟨{ fila := filaAposJogar s.fila r, pilha := p1,
                ultimo := salvarEstado s.ultimo s.fila s.pilha }, ?_, hfj, hp1, fun _ => hsalvo⟩
      simp [executarOpcao, h2, opcaoReservar, hl, hpu, hj]
  by_cases h3 : opcao = 3
  · obtain ⟨x, p1, hpo, hp1⟩ := pop_bemFormada s.pilha hp
    refine ⟨{ fila := s.fila, pilha := p1, ultimo := salvarEstado s.ultimo s.fila s.pilha },
      ?_, hf, hp1, fun _ => hsalvo⟩
    simp [executarOpcao, h3, opcaoUsar, hpo]
  by_cases h4 : opcao = 4
  · obtain ⟨f1, p1, ht, hf1, hp1⟩ := trocar_cheia s.fila s.pilha hf hp
    refine ⟨{ fila := f1, pilha := p1, ultimo := salvarEstado s.ultimo s.fila s.pilha },
      ?_, hf1, hp1, fun _ => hsalvo⟩
    simp [executarOpcao, h4, opcaoTrocar, ht]
  by_cases h5 : opcao = 5
  · have hu1 := hu (hd h5)
    refine ⟨opcaoDesfazer s, ?_, hu1.1, hu1.2, fun _ => hu1⟩
    simp [executarOpcao, h5]
  by_cases h6 : opcao = 6
  · obtain ⟨f1, p1, ht, hf1, hp1⟩ := inverter_cheia_bemFormada s.fila s.pilha hf hp
    refine ⟨{ fila := f1, pilha := p1, ultimo := salvarEstado s.ultimo s.fila s.pilha },
      ?_, hf1, hp1, fun _ => hsalvo⟩
    simp [executarOpcao, h6, opcaoInverter, ht]
  · refine ⟨s, by simp only [executarOpcao, h1, h2, h3, h4, h5, h6, if_false], hf, hp, ?_⟩
    have : opcaoSalva opcao = false := by
      simp only [opcaoSalva, h1, h2, h3, h4, h6, or_self, decide_False]
    simpa [this] using hu

/-- The menu loop is defined on a session with a full queue and ends in one. -/
theorem mainLaco_cheia (entradas : List (Int × Nat)) :
    ∀ (s : Sessao) (salvo : Bool), sessaoCheia salvo s →
      desfazerAposSalvar salvo entradas = true →
      ∃ s1 salvo1, mainLaco s entradas = some s1 ∧ sessaoCheia salvo1 s1 := by
  induction entradas with
  | nil => intro s salvo h _; exact ⟨s, salvo, rfl, h⟩
  | cons e resto ih =>
    intro s salvo h hv
    obtain ⟨opcao, r⟩ := e
    have hd : opcao = 5 → salvo = true := by
      intro h5
      simp only [desfazerAposSalvar, h5, if_true, Bool.and_eq_true] at hv
      exact hv.1
    obtain ⟨s1, he, h1⟩ := executarOpcao_cheia opcao r s salvo h hd
    by_cases h0 : opcao = 0
    · refine ⟨s1, _, ?_, h1⟩
      simp only [mainLaco, he]
      simp only [h0, if_true]
    · have hv1 : desfazerAposSalvar (salvo || opcaoSalva opcao) resto = true := by
        by_cases h5 : opcao = 5
        · simp only [desfazerAposSalvar, h5, if_true, Bool.and_eq_true] at hv
          have e5 : opcaoSalva 5 = false := by decide
          rw [h5, e5, Bool.or_false]
          exact hv.2
        · simpa only [desfazerAposSalvar, h5, if_false] using hv
      obtain ⟨s2, salvo2, hl, h2⟩ := ih s1 _ h1 hv1
      exact ⟨s2, salvo2, by simp only [mainLaco, he, h0, if_false, hl], h2⟩

/-- The session right after the initialisation has a full queue. -/
theorem sessaoInicial_cheia (lixoP : Pilha) (lixoU : Estado) (rnd : Nat → Nat) :
    sessaoCheia false
      { fila := { fila := fun k => (gerarPeca (rnd k) ((k : Nat) + 1)).1,
                  inicio := 0, fim := 0, tamanho := 5, contadorID := 6 },
        pilha := inicializarPilha lixoP, ultimo := lixoU } := by
  refine ⟨⟨⟨by simp, by simp⟩, rfl, rfl⟩, ?_, ?_⟩
  · simp [pilhaBemFormada, inicializarPilha]
  · intro e
    exact absurd e (by decide)

/-- C17: in every state reached by `main` on menu choices in which undo comes only
after a save, the queue is full and consistent: `tamanho = 5`, `0 ≤ inicio < 5`,
`0 ≤ fim < 5`, `fim = (inicio + tamanho) % 5` and so `fim = inicio`; the queue is
never empty. -/
theorem main_fila_cheia (lixoF : Fila) (lixoP : Pilha) (lixoU : Estado) (rnd : Nat → Nat)
    (entradas : List (Int × Nat)) (h : desfazerAposSalvar false entradas = true) :
    ∃ s, main lixoF lixoP lixoU rnd entradas = some s ∧
      s.fila.tamanho = 5 ∧ (0 ≤ s.fila.inicio ∧ s.fila.inicio < 5) ∧
      (0 ≤ s.fila.fim ∧ s.fila.fim < 5) ∧
      s.fila.fim = (s.fila.inicio + s.fila.tamanho) % 5 ∧ s.fila.fim = s.fila.inicio ∧
      s.fila.tamanho ≠ 0 := by
  obtain ⟨s1, salvo1, hl, hc⟩ :=
    mainLaco_cheia entradas _ false (sessaoInicial_cheia lixoP lixoU rnd) h
  obtain ⟨⟨hi, hta, hfim⟩, -, -⟩ := hc
  refine ⟨s1, by simp only [main, inicializarFila_eq, hl], hta, hi, by omega, ?_, hfim,
    by omega⟩
  rw [hfim, hta]
  omega

/-- Witness of `main_fila_cheia` on a session that uses every menu choice. -/
theorem main_fila_cheia_witness :
    desfazerAposSalvar false [(1, 3), (2, 1), (6, 0), (5, 0), (4, 2), (3, 0), (2, 9), (0, 0)]
      = true ∧
    ∃ s, main filaExemplo pilhaExemplo sessaoExemplo.ultimo (fun i => i)
        [(1, 3), (2, 1), (6, 0), (5, 0), (4, 2), (3, 0), (2, 9), (0, 0)] = some s ∧
      s.fila.tamanho = 5 ∧ (0 ≤ s.fila.inicio ∧ s.fila.inicio < 5) ∧
      (0 ≤ s.fila.fim ∧ s.fila.fim < 5) ∧
      s.fila.fim = (s.fila.inicio + s.fila.tamanho) % 5 ∧ s.fila.fim = s.fila.inicio ∧
      s.fila.tamanho ≠ 0 :=
  ⟨by decide, main_fila_cheia filaExemplo pilhaExemplo sessaoExemplo.ultimo (fun i => i) _
    (by decide)⟩

/-! ## Unique ids -/

/-- The live stack pieces read from the top downwards are a permutation of the live
stack pieces. -/
theorem pilhaViva_reversa (b : Fin TAM_PILHA → Peca) (t : Int) (h1 : -1 ≤ t) (h2 : t ≤ 2) :
    ((List.range (t + 1).toNat).map (fun (k : Nat) => b (nivel (t - (k : Int))))).Perm
      (pilhaViva { pilha := b, topo := t }) := by
  have ht : t = -1 ∨ t = 0 ∨ t = 1 ∨ t = 2 := by omega
  rcases ht with rfl | rfl | rfl | rfl
  · exact List.Perm.refl _
  · exact List.Perm.refl _
  · exact List.reverse_perm [b (nivel 0), b (nivel 1)]
  · exact List.reverse_perm [b (nivel 0), b (nivel 1), b (nivel 2)]

/-- Live pieces after `inverterFilaPilha` on a full queue: a permutation of the live
pieces before. -/
theorem pecasVivas_inverter (a : Fin TAM_FILA → Peca) (p : Pilha) (i : Int)
    (hp : pilhaBemFormada p) :
    (pecasVivas (blocoParaFila a p.pilha i p.topo (p.topo + 1).toNat) i
      { pilha := blocoParaPilha a p.pilha i (p.topo + 1).toNat, topo := p.topo }).Perm
      (pecasVivas a i p) := by
  obtain ⟨h1, h2⟩ := hp
  obtain ⟨n, hn⟩ : ∃ n : Nat, (p.topo + 1).toNat = n := ⟨_, rfl⟩
  have hn3 : n ≤ 3 := by omega
  obtain ⟨m, hm⟩ : ∃ m : Nat, 5 = n + m := ⟨5 - n, by omega⟩
  have e1 : janela (blocoParaFila a p.pilha i p.topo n) i n =
      (List.range n).map (fun (k : Nat) => p.pilha (nivel (p.topo - (k : Int)))) := by
    simp only [janela]
    apply List.map_congr_left
    intro k hk
    have hk1 : k < n := by simpa using hk
    exact blocoParaFila_dentro _ _ _ _ _ (by omega) k hk1
  have e2 : janela (blocoParaFila a p.pilha i p.topo n) (i + n) m = janela a (i + n) m := by
    simp only [janela]
    apply List.map_congr_left
    intro k hk
    have hk1 : k < m := by simpa using hk
    exact blocoParaFila_fora _ _ _ _ _ _
      (fun j hj => (casa_ne _ _ (by omega) (by omega)).symm)
  have e3 : pilhaViva { pilha := blocoParaPilha a p.pilha i n, topo := p.topo } =
      janela a i n := by
    simp only [pilhaViva, janela, hn]
    apply List.map_congr_left
    intro k hk
    have hk1 : k < n := by simpa using hk
    exact blocoParaPilha_dentro _ _ _ _ hn3 k hk1
  have e4 := pilhaViva_reversa p.pilha p.topo h1 h2
  rw [hn] at e4 ⊢
  simp only [pecasVivas]
  rw [hm, janela_append, janela_append, e1, e2, e3]
  have e5 : pilhaViva { pilha := p.pilha, topo := p.topo } = pilhaViva p := rfl
  rw [e5] at e4
  rw [List.append_assoc (janela a i n)]
  exact List.perm_append_comm.trans
    (List.Perm.append_left _ (List.perm_append_comm.trans (List.Perm.append_left _ e4)))

/-- Live pieces after `jogarPeca` on a full queue: the old front piece is gone and the
new piece, whose id is the old counter, has joined. -/
theorem idsValidos_jogar (f : Fila) (p : Pilha) (r : Nat)
    (hc : f.contadorID < 2147483647) (hc0 : -2147483648 ≤ f.contadorID)
    (h : idsValidos f.contadorID (pecasVivas f.fila f.inicio p)) :
    idsValidos (filaAposJogar f r).contadorID
      (pecasVivas (filaAposJogar f r).fila (filaAposJogar f r).inicio p) := by
  have hc1 : addI f.contadorID 1 = f.contadorID + 1 := wrap32_eq _ (by omega) (by omega)
  simp only [filaAposJogar, pecasVivas, janela_jogar, hc1]
  have e : pecasVivas f.fila f.inicio p =
      f.fila (casa f.inicio) :: (janela f.fila (f.inicio + 1) 4 ++ pilhaViva p) := by
    simp only [pecasVivas]
    rw [show (5 : Nat) = 4 + 1 by rfl, janela_succ_frente, List.cons_append]
  rw [e] at h
  have h1 := idsValidos_sublist _ _ _ (List.sublist_cons_self _ _) h
  have h2 := idsValidos_novo _ _ (gerarPeca r f.contadorID).1 rfl h1
  refine idsValidos_perm _ _ _ ?_ h2
  rw [List.append_assoc, List.singleton_append]
  exact List.perm_middle

/-- Live pieces after a successful reserve: the old front piece moved to the stack and
the new piece joined the queue. -/
theorem idsValidos_reservar (f : Fila) (p : Pilha) (r : Nat)
    (hc : f.contadorID < 2147483647) (hc0 : -2147483648 ≤ f.contadorID)
    (hp : -1 ≤ p.topo ∧ p.topo < 2)
    (h : idsValidos f.contadorID (pecasVivas f.fila f.inicio p)) :
    idsValidos (filaAposJogar f r).contadorID
      (pecasVivas (filaAposJogar f r).fila (filaAposJogar f r).inicio
        { pilha := Function.update p.pilha (nivel (p.topo + 1)) (f.fila (casa f.inicio)),
          topo := p.topo + 1 }) := by
  have hc1 : addI f.contadorID 1 = f.contadorID + 1 := wrap32_eq _ (by omega) (by omega)
  have est : pilhaViva
      { pilha := Function.update p.pilha (nivel (p.topo + 1)) (f.fila (casa f.inicio)),
        topo := p.topo + 1 } = pilhaViva p ++ [f.fila (casa f.inicio)] := by
    rw [pilhaViva_succ _ _ hp.1, pilhaViva_update _ _ _ _ (by omega) (by omega),
      Function.update_same]
  simp only [filaAposJogar, pecasVivas, janela_jogar, hc1, est]
  have e : pecasVivas f.fila f.inicio p =
      f.fila (casa f.inicio) :: (janela f.fila (f.inicio + 1) 4 ++ pilhaViva p) := by
    simp only [pecasVivas]
    rw [show (5 : Nat) = 4 + 1 by rfl, janela_succ_frente, List.cons_append]
  rw [e] at h
  have h2 := idsValidos_novo _ _ (gerarPeca r f.contadorID).1 rfl h
  refine idsValidos_perm _ _ _ ?_ h2
  rw [List.append_assoc, List.singleton_append]
  refine List.perm_middle.trans (List.Perm.cons _ ?_)
  rw [← List.append_assoc]
  exact List.perm_append_singleton _ _

/-- Live pieces after `pop` on a non-empty stack: the top piece is gone. -/
theorem idsValidos_usar (c : Int) (a : Fin TAM_FILA → Peca) (i : Int) (p : Pilha)
    (hp : 0 ≤ p.topo) (h : idsValidos c (pecasVivas a i p)) :
    idsValidos c (pecasVivas a i { pilha := p.pilha, topo := p.topo - 1 }) := by
  have est : pilhaViva p =
      pilhaViva { pilha := p.pilha, topo := p.topo - 1 } ++ [p.pilha (nivel p.topo)] := by
    have := pilhaViva_succ p.pilha (p.topo - 1) (by omega)
    rw [show p.topo - 1 + 1 = p.topo by omega] at this
    exact this
  refine idsValidos_sublist _ _ _ ?_ h
  simp only [pecasVivas, est]
  exact List.Sublist.append_left (List.sublist_append_left _ _) _

theorem perm_troca_pontas (x y : Peca) (u v : List Peca) :
    (y :: (u ++ (v ++ [x]))).Perm (x :: (u ++ (v ++ [y]))) := by
  have h1 : ∀ z : Peca, (u ++ (v ++ [z])).Perm (z :: (u ++ v)) := by
    intro z
    rw [← List.append_assoc]
    exact List.perm_append_singleton _ _
  exact ((List.Perm.cons y (h1 x)).trans (List.Perm.swap x y _)).trans
    (List.Perm.cons x (h1 y)).symm

/-- Live pieces after `trocarFilaPilha` on a non-empty stack: a permutation. -/
theorem idsValidos_trocar (c : Int) (a : Fin TAM_FILA → Peca) (i : Int) (p : Pilha)
    (hp : 0 ≤ p.topo ∧ p.topo ≤ 2) (h : idsValidos c (pecasVivas a i p)) :
    idsValidos c (pecasVivas (Function.update a (casa i) (p.pilha (nivel p.topo))) i
      { pilha := Function.update p.pilha (nivel p.topo) (a (casa i)), topo := p.topo }) := by
  have est : pilhaViva p =
      pilhaViva { pilha := p.pilha, topo := p.topo - 1 } ++ [p.pilha (nivel p.topo)] := by
    have := pilhaViva_succ p.pilha (p.topo - 1) (by omega)
    rw [show p.topo - 1 + 1 = p.topo by omega] at this
    exact this
  have est2 : pilhaViva
      { pilha := Function.update p.pilha (nivel p.topo) (a (casa i)), topo := p.topo } =
      pilhaViva { pilha := p.pilha, topo := p.topo - 1 } ++ [a (casa i)] := by
    have := pilhaViva_succ (Function.update p.pilha (nivel p.topo) (a (casa i)))
      (p.topo - 1) (by omega)
    rw [show p.topo - 1 + 1 = p.topo by omega] at this
    rw [this, pilhaViva_update _ _ _ _ (by omega) hp.2, Function.update_same]
  have eq : janela a i 5 = a (casa i) :: janela a (i + 1) 4 := janela_succ_frente a i 4
  refine idsValidos_perm _ _ _ ?_ h
  simp only [pecasVivas, est, est2, janela_trocar, eq, List.cons_append]
  exact perm_troca_pontas _ _ _ _

/-- A choice that changes the counter generated a piece, so without overflow the counter
was below the largest `int`. -/
theorem gerada_exige (opcao : Int) (r : Nat) (s x : Sessao)
    (hx : executarOpcao opcao r s = some x)
    (hne : x.fila.contadorID ≠ s.fila.contadorID)
    (hc : s.fila.contadorID < 2147483647 ∨ pecaGerada opcao r s = []) :
    s.fila.contadorID < 2147483647 := by
  rcases hc with hc | hg
  · exact hc
  · simp only [pecaGerada, hx, if_neg hne] at hg
    exact absurd hg (List.cons_ne_nil _ _)

/-- Every menu choice keeps the id invariant and moves `contadorID` up by at most one,
as long as it does not generate a piece while the counter is the largest `int`. -/
theorem executarOpcao_ids (opcao : Int) (r : Nat) (s : Sessao) (salvo : Bool)
    (h : sessaoIds salvo s) (hd : opcao = 5 → salvo = true)
    (hc0 : -2147483648 ≤ s.fila.contadorID)
    (hc : s.fila.contadorID < 2147483647 ∨ pecaGerada opcao r s = []) :
    ∃ s1, executarOpcao opcao r s = some s1 ∧
      sessaoIds (salvo || opcaoSalva opcao) s1 ∧
      s.fila.contadorID ≤ s1.fila.contadorID ∧
      s1.fila.contadorID ≤ s.fila.contadorID + 1 := by
  obtain ⟨hch, hids, hu⟩ := h
  obtain ⟨s1, he, hch1⟩ := executarOpcao_cheia opcao r s salvo hch hd
  obtain ⟨hf, hp, -⟩ := hch
  have hj := jogarPeca_cheia s.fila r hf
  have hl := lerEm_casa s.fila.fila s.fila.inicio s.fila.inicio (by have := hf.1; omega)
  have fecho : ∀ (x : Sessao), executarOpcao opcao r s = some x →
      x.ultimo = salvarEstado s.ultimo s.fila s.pilha →
      idsValidos x.fila.contadorID (pecasVivas x.fila.fila x.fila.inicio x.pilha) →
      s.fila.contadorID ≤ x.fila.contadorID → x.fila.contadorID ≤ s.fila.contadorID + 1 →
      ∃ s1, executarOpcao opcao r s = some s1 ∧
        sessaoIds (salvo || opcaoSalva opcao) s1 ∧
        s.fila.contadorID ≤ s1.fila.contadorID ∧
        s1.fila.contadorID ≤ s.fila.contadorID + 1 := by
    intro x hx hux hix h1 h2
    have e : s1 = x := Option.some.inj (he.symm.trans hx)
    subst e
    refine ⟨s1, hx, ⟨hch1, hix, fun _ => ?_⟩, h1, h2⟩
    rw [hux]
    exact idsValidos_mono _ _ _ h1 hids
  by_cases h1 : opcao = 1
  · have hx : executarOpcao opcao r s = some
        ⟨filaAposJogar s.fila r, s.pilha, salvarEstado s.ultimo s.fila s.pilha⟩ := by
      simp [executarOpcao, h1, opcaoJogar, hj]
    have hlt := gerada_exige opcao r s _ hx (addI_um_ne _) hc
    have hc1 : addI s.fila.contadorID 1 = s.fila.contadorID + 1 :=
      wrap32_eq _ (by omega) (by omega)
    refine fecho _ hx rfl (idsValidos_jogar s.fila s.pilha r hlt hc0 hids) ?_ ?_
    · simp only [filaAposJogar, hc1]; omega
    · simp only [filaAposJogar, hc1]; omega
  by_cases h2 : opcao = 2
  · by_cases ht : s.pilha.topo = 2
    · have hpu := push_cheia s.pilha (s.fila.fila (casa s.fila.inicio)) (by omega)
      refine fecho ⟨s.fila, s.pilha, salvarEstado s.ultimo s.fila s.pilha⟩ ?_ rfl hids (le_refl _) (by show s.fila.contadorID ≤ s.fila.contadorID + 1; omega)
      simp [executarOpcao, h2, opcaoReservar, hl, hpu]
    · have hp2 : -1 ≤ s.pilha.topo ∧ s.pilha.topo < 2 := ⟨hp.1, by have := hp.2; omega⟩
      have hpu := push_livre s.pilha (s.fila.fila (casa s.fila.inicio)) hp2.1 hp2.2
      have hx : executarOpcao opcao r s = some
          ⟨filaAposJogar s.fila r,
            ⟨Function.update s.pilha.pilha (nivel (s.pilha.topo + 1))
              (s.fila.fila (casa s.fila.inicio)), s.pilha.topo + 1⟩,
            salvarEstado s.ultimo s.fila s.pilha⟩ := by
        simp [executarOpcao, h2, opcaoReservar, hl, hpu, hj]
      have hlt := gerada_exige opcao r s _ hx (addI_um_ne _) hc
      have hc1 : addI s.fila.contadorID 1 = s.fila.contadorID + 1 :=
        wrap32_eq _ (by omega) (by omega)
      refine fecho _ hx rfl (idsValidos_reservar s.fila s.pilha r hlt hc0 hp2 hids) ?_ ?_
      · simp only [filaAposJogar, hc1]; omega
      · simp only [filaAposJogar, hc1]; omega
  by_cases h3 : opcao = 3
  · by_cases ht : s.pilha.topo = -1
    · refine fecho ⟨s.fila, s.pilha, salvarEstado s.ultimo s.fila s.pilha⟩ ?_ rfl hids (le_refl _) (by show s.fila.contadorID ≤ s.fila.contadorID + 1; omega)
      simp [executarOpcao, h3, opcaoUsar, pop_vazia s.pilha ht]
    · have ht0 : 0 ≤ s.pilha.topo := by have := hp.1; omega
      refine fecho ⟨s.fila, ⟨s.pilha.pilha, s.pilha.topo - 1⟩,
          salvarEstado s.ultimo s.fila s.pilha⟩ ?_ rfl
        (idsValidos_usar _ _ _ _ ht0 hids) (le_refl _) (by show s.fila.contadorID ≤ s.fila.contadorID + 1; omega)
      simp [executarOpcao, h3, opcaoUsar, pop_ocupada s.pilha ht0 hp.2]
  by_cases h4 : opcao = 4
  · by_cases ht : s.pilha.topo = -1
    · refine fecho ⟨s.fila, s.pilha, salvarEstado s.ultimo s.fila s.pilha⟩ ?_ rfl hids (le_refl _) (by show s.fila.contadorID ≤ s.fila.contadorID + 1; omega)
      simp [executarOpcao, h4, opcaoTrocar, trocar_vazia s.fila s.pilha ht]
    · have ht0 : 0 ≤ s.pilha.topo ∧ s.pilha.topo ≤ 2 := ⟨by have := hp.1; omega, hp.2⟩
      refine fecho
        ⟨⟨Function.update s.fila.fila (casa s.fila.inicio) (s.pilha.pilha (nivel s.pilha.topo)),
            s.fila.inicio, s.fila.fim, s.fila.tamanho, s.fila.contadorID⟩,
          ⟨Function.update s.pilha.pilha (nivel s.pilha.topo) (s.fila.fila (casa s.fila.inicio)),
            s.pilha.topo⟩,
          salvarEstado s.ultimo s.fila s.pilha⟩ ?_ rfl
        (idsValidos_trocar _ _ _ _ ht0 hids) (le_refl _) (by show s.fila.contadorID ≤ s.fila.contadorID + 1; omega)
      simp [executarOpcao, h4, opcaoTrocar, trocar_eq s.fila s.pilha hf.1 ht0]
  by_cases h5 : opcao = 5
  · have hx : executarOpcao opcao r s = some (opcaoDesfazer s) := by
      simp [executarOpcao, h5]
    have e : s1 = opcaoDesfazer s := Option.some.inj (he.symm.trans hx)
    subst e
    have hu1 := hu (hd h5)
    refine ⟨_, hx, ⟨hch1, hu1, fun _ => hu1⟩, le_refl _, ?_⟩
    show s.fila.contadorID ≤ s.fila.contadorID + 1
    omega
  by_cases h6 : opcao = 6
  · refine fecho
      ⟨⟨blocoParaFila s.fila.fila s.pilha.pilha s.fila.inicio s.pilha.topo
            (s.pilha.topo + 1).toNat,
          s.fila.inicio, s.fila.fim, s.fila.tamanho, s.fila.contadorID⟩,
        ⟨blocoParaPilha s.fila.fila s.pilha.pilha s.fila.inicio (s.pilha.topo + 1).toNat,
          s.pilha.topo⟩,
        salvarEstado s.ultimo s.fila s.pilha⟩ ?_ rfl
      (idsValidos_perm _ _ _ (pecasVivas_inverter _ _ _ hp) hids) (le_refl _)
      (by show s.fila.contadorID ≤ s.fila.contadorID + 1; omega)
    simp [executarOpcao, h6, opcaoInverter, inverter_cheia s.fila s.pilha hf hp]
  · have hx : executarOpcao opcao r s = some s := by
      simp only [executarOpcao, h1, h2, h3, h4, h5, h6, if_false]
    have e : s1 = s := Option.some.inj (he.symm.trans hx)
    subst e
    have hs : opcaoSalva opcao = false := by
      simp only [opcaoSalva, h1, h2, h3, h4, h6, or_self, decide_False]
    refine ⟨_, hx, ⟨hch1, hids, ?_⟩, le_refl _, by omega⟩
    simpa [hs] using hu

/-- The session right after the initialisation satisfies the id invariant. -/
theorem sessaoInicial_ids (lixoP : Pilha) (lixoU : Estado) (rnd : Nat → Nat) :
    sessaoIds false
      { fila := { fila := fun k => (gerarPeca (rnd k) ((k : Nat) + 1)).1,
                  inicio := 0, fim := 0, tamanho := 5, contadorID := 6 },
        pilha := inicializarPilha lixoP, ultimo := lixoU } := by
  refine ⟨sessaoInicial_cheia lixoP lixoU rnd, ?_, ?_⟩
  · have e : pilhaViva (inicializarPilha lixoP) = [] := rfl
    simp only [pecasVivas, e, List.append_nil]
    simp [idsValidos, janela, List.range_succ, gerarPeca, casa]
  · intro e
    exact absurd e (by decide)

theorem mostrarFila_cheia (f : Fila) (h : filaCheia f) :
    mostrarFila f = some (janela f.fila f.inicio 5) := by
  obtain ⟨hi, hta, -⟩ := h
  simp only [mostrarFila, hta]
  exact mostrarFilaDe_eq f.fila 5 f.inicio hi.1 hi.2

/-- What `pecaGerada` is, given the session after the choice and that the counter moved
up by at most one: nothing, or the piece with the old counter as id. -/
theorem pecaGerada_eq (opcao : Int) (r : Nat) (s s1 : Sessao)
    (he : executarOpcao opcao r s = some s1)
    (h1 : s.fila.contadorID ≤ s1.fila.contadorID)
    (h2 : s1.fila.contadorID ≤ s.fila.contadorID + 1) :
    (pecaGerada opcao r s = [] ∧ s1.fila.contadorID = s.fila.contadorID) ∨
    (pecaGerada opcao r s = [(gerarPeca r s.fila.contadorID).1] ∧
      s1.fila.contadorID = s.fila.contadorID + 1) := by
  by_cases e : s1.fila.contadorID = s.fila.contadorID
  · exact Or.inl ⟨by simp only [pecaGerada, he, if_pos e], e⟩
  · exact Or.inr ⟨by simp only [pecaGerada, he, if_neg e], by omega⟩

/-- The menu loop keeps the id invariant as long as the counter does not overflow, and
the pieces it generates have strictly increasing ids, from the counter at the start up
to below the counter at the end. -/
theorem mainLaco_ids (entradas : List (Int × Nat)) :
    ∀ (s : Sessao) (salvo : Bool), sessaoIds salvo s →
      desfazerAposSalvar salvo entradas = true →
      -2147483648 ≤ s.fila.contadorID →
      semTransbordo s entradas = true →
      ∃ s1 salvo1, mainLaco s entradas = some s1 ∧ sessaoIds salvo1 s1 ∧
        s.fila.contadorID ≤ s1.fila.contadorID ∧
        ((geradasNoLaco s entradas).map Peca.id).Pairwise (fun a b => a < b) ∧
        ∀ x ∈ geradasNoLaco s entradas,
          s.fila.contadorID ≤ x.id ∧ x.id < s1.fila.contadorID := by
  induction entradas with
  | nil =>
    intro s salvo h _ _ _
    exact ⟨s, salvo, rfl, h, le_refl _, by simp [geradasNoLaco], by simp [geradasNoLaco]⟩
  | cons e resto ih =>
    intro s salvo h hv hc0 hst
    obtain ⟨opcao, r⟩ := e
    have hd : opcao = 5 → salvo = true := by
      intro h5
      simp only [desfazerAposSalvar, h5, if_true, Bool.and_eq_true] at hv
      exact hv.1
    simp only [semTransbordo, Bool.and_eq_true, Bool.or_eq_true, decide_eq_true_eq,
      List.isEmpty_iff] at hst
    obtain ⟨hc, hresto⟩ := hst
    obtain ⟨s1, he, h1, hm1, hm2⟩ := executarOpcao_ids opcao r s salvo h hd hc0 hc
    have hg := pecaGerada_eq opcao r s s1 he hm1 hm2
    rw [he] at hresto
    by_cases h0 : opcao = 0
    · subst h0
      have hgl : geradasNoLaco s ((0, r) :: resto) = pecaGerada 0 r s := by
        simp [geradasNoLaco, he]
      refine ⟨s1, _, by simp [mainLaco, he], h1, hm1, ?_, ?_⟩
      · rw [hgl]
        rcases hg with ⟨e, -⟩ | ⟨e, -⟩ <;> rw [e] <;> simp
      · rw [hgl]
        intro x hx
        rcases hg with ⟨e, -⟩ | ⟨e, e1⟩ <;> rw [e] at hx
        · simp at hx
        · rw [List.mem_singleton] at hx
          rw [hx, e1]
          simp only [gerarPeca]
          omega
    · have hv1 : desfazerAposSalvar (salvo || opcaoSalva opcao) resto = true := by
        by_cases h5 : opcao = 5
        · simp only [desfazerAposSalvar, h5, if_true, Bool.and_eq_true] at hv
          have e5 : opcaoSalva 5 = false := by decide
          rw [h5, e5, Bool.or_false]
          exact hv.2
        · simpa only [desfazerAposSalvar, h5, if_false] using hv
      simp only [h0, if_false] at hresto
      obtain ⟨s2, salvo2, hl, h2, hm3, hpw, hbd⟩ := ih s1 _ h1 hv1 (by omega) hresto
      refine ⟨s2, salvo2, by simp only [mainLaco, he, h0, if_false, hl], h2, by omega, ?_, ?_⟩
      · simp only [geradasNoLaco, he, h0, if_false, List.map_append]
        rcases hg with ⟨e, -⟩ | ⟨e, e1⟩
        · rw [e]
          simpa using hpw
        · rw [e, List.map_singleton, List.singleton_append, List.pairwise_cons]
          refine ⟨?_, hpw⟩
          intro b hb
          obtain ⟨y, hy, rfl⟩ := List.mem_map.1 hb
          have := (hbd y hy).1
          simp only [gerarPeca]
          omega
      · simp only [geradasNoLaco, he, h0, if_false]
        intro x hx
        rcases List.mem_append.1 hx with hx | hx
        · rcases hg with ⟨e, -⟩ | ⟨e, e1⟩ <;> rw [e] at hx
          · simp at hx
          · rw [List.mem_singleton] at hx
            rw [hx]
            simp only [gerarPeca]
            omega
        · have := hbd x hx
          omega

/-- C13 (amended): in every state reached by `main` on menu choices (undo only after a
save) during which no piece was generated while `contadorID` was `2^31 - 1`, the live
pieces of the queue and of the stack have pairwise distinct ids, each strictly below
`contadorID`; the ids of all pieces generated so far are strictly increasing in
generation order and below `contadorID`; a further menu choice does not decrease
`contadorID` unless it generates a piece at `contadorID = 2^31 - 1`; and the piece
`jogarPeca` inserts at the tail has the id `contadorID`, strictly greater than every id
generated before it. -/
theorem main_ids_unicos (lixoF : Fila) (lixoP : Pilha) (lixoU : Estado) (rnd : Nat → Nat)
    (entradas : List (Int × Nat)) (h : desfazerAposSalvar false entradas = true)
    (hn : mainSemTransbordo lixoF lixoP lixoU rnd entradas = true) :
    ∃ s q st, main lixoF lixoP lixoU rnd entradas = some s ∧
      mostrarFila s.fila = some q ∧ mostrarPilha s.pilha = some st ∧
      ((q ++ st).map Peca.id).Nodup ∧
      (∀ x ∈ q ++ st, x.id < s.fila.contadorID) ∧
      ((geradasEmMain lixoF lixoP lixoU rnd entradas).map Peca.id).Pairwise
        (fun a b => a < b) ∧
      (∀ x ∈ geradasEmMain lixoF lixoP lixoU rnd entradas, x.id < s.fila.contadorID) ∧
      (∀ (opcao : Int) (r : Nat), ∃ s1, executarOpcao opcao r s = some s1 ∧
        (s.fila.contadorID < 2147483647 ∨ pecaGerada opcao r s = [] →
          s.fila.contadorID ≤ s1.fila.contadorID)) ∧
      (∀ r : Nat, ∃ p f1 q1, jogarPeca s.fila r = some (p, f1) ∧
        mostrarFila f1 = some (q1 ++ [(gerarPeca r s.fila.contadorID).1]) ∧
        (gerarPeca r s.fila.contadorID).1.id = s.fila.contadorID ∧
        (∀ x ∈ geradasEmMain lixoF lixoP lixoU rnd entradas,
          x.id < (gerarPeca r s.fila.contadorID).1.id) ∧
        ∀ x ∈ q ++ st, x.id < (gerarPeca r s.fila.contadorID).1.id) := by
  have hn1 : semTransbordo
      { fila := { fila := fun k => (gerarPeca (rnd k) ((k : Nat) + 1)).1,
                  inicio := 0, fim := 0, tamanho := 5, contadorID := 6 },
        pilha := inicializarPilha lixoP, ultimo := lixoU } entradas = true := by
    simpa only [mainSemTransbordo, inicializarFila_eq] using hn
  obtain ⟨s, salvo, hl, hids, hm1, hpw, hbd⟩ :=
    mainLaco_ids entradas _ false (sessaoInicial_ids lixoP lixoU rnd) h (by simp) hn1
  have hc6 : (6 : Int) ≤ s.fila.contadorID := hm1
  have hger : geradasEmMain lixoF lixoP lixoU rnd entradas =
      List.ofFn (fun (k : Fin TAM_FILA) => (gerarPeca (rnd k) ((k : Nat) + 1)).1) ++
        geradasNoLaco
          { fila := { fila := fun k => (gerarPeca (rnd k) ((k : Nat) + 1)).1,
                      inicio := 0, fim := 0, tamanho := 5, contadorID := 6 },
            pilha := inicializarPilha lixoP, ultimo := lixoU } entradas := by
    simp only [geradasEmMain, inicializarFila_eq]
  have hini : (List.ofFn (fun (k : Fin TAM_FILA) =>
      (gerarPeca (rnd k) ((k : Nat) + 1)).1)).map Peca.id = [1, 2, 3, 4, 5] := by
    simp [List.ofFn_succ, gerarPeca]
  have hgbd : ∀ x ∈ geradasEmMain lixoF lixoP lixoU rnd entradas,
      x.id < s.fila.contadorID := by
    intro x hx
    rw [hger] at hx
    rcases List.mem_append.1 hx with hx | hx
    · have : x.id ∈ [(1 : Int), 2, 3, 4, 5] := by
        rw [← hini]
        exact List.mem_map_of_mem _ hx
      simp only [List.mem_cons, List.mem_singleton, List.not_mem_nil, or_false] at this
      omega
    · exact (hbd x hx).2
  obtain ⟨hf, hp, -⟩ := hids.1
  refine ⟨s, _, _, by simp only [main, inicializarFila_eq, hl], mostrarFila_cheia s.fila hf,
    mostrarPilha_eq s.pilha hp, hids.2.1.1, hids.2.1.2, ?_, hgbd, ?_, ?_⟩
  · rw [hger, List.map_append, hini, List.pairwise_append]
    refine ⟨by decide, hpw, ?_⟩
    intro a ha b hb
    obtain ⟨y, hy, rfl⟩ := List.mem_map.1 hb
    have := (hbd y hy).1
    simp only [List.mem_cons, List.mem_singleton, List.not_mem_nil, or_false] at ha
    have h6 : (6 : Int) ≤ y.id := this
    omega
  · intro opcao r
    by_cases h5 : opcao = 5
    · exact ⟨opcaoDesfazer s, by simp [executarOpcao, h5], fun _ => le_refl _⟩
    · obtain ⟨s1, he, -⟩ := executarOpcao_cheia opcao r s salvo hids.1 (fun e => absurd e h5)
      refine ⟨s1, he, fun hc => ?_⟩
      obtain ⟨s2, he2, -, hle, -⟩ :=
        executarOpcao_ids opcao r s salvo hids (fun e => absurd e h5) (by omega) hc
      rw [Option.some.inj (he.symm.trans he2)]
      exact hle
  · intro r
    refine ⟨_, _, janela s.fila.fila (s.fila.inicio + 1) 4, jogarPeca_cheia s.fila r hf, ?_,
      rfl, hgbd, hids.2.1.2⟩
    rw [mostrarFila_cheia _ (filaAposJogar_cheia s.fila r hf)]
    simp only [filaAposJogar, janela_jogar]

/-- Witness of `main_ids_unicos` on a session that uses every menu choice. -/
theorem main_ids_unicos_witness :
    desfazerAposSalvar false [(1, 3), (2, 1), (6, 0), (5, 0), (4, 2), (3, 0), (2, 9), (0, 0)]
      = true ∧
    mainSemTransbordo filaExemplo pilhaExemplo sessaoExemplo.ultimo (fun i => i)
      [(1, 3), (2, 1), (6, 0), (5, 0), (4, 2), (3, 0), (2, 9), (0, 0)] = true ∧
    ∃ s q st, main filaExemplo pilhaExemplo sessaoExemplo.ultimo (fun i => i)
        [(1, 3), (2, 1), (6, 0), (5, 0), (4, 2), (3, 0), (2, 9), (0, 0)] = some s ∧
      mostrarFila s.fila = some q ∧ mostrarPilha s.pilha = some st ∧
      ((q ++ st).map Peca.id).Nodup ∧
      (∀ x ∈ q ++ st, x.id < s.fila.contadorID) ∧
      ((geradasEmMain filaExemplo pilhaExemplo sessaoExemplo.ultimo (fun i => i)
        [(1, 3), (2, 1), (6, 0), (5, 0), (4, 2), (3, 0), (2, 9), (0, 0)]).map Peca.id).Pairwise
        (fun a b => a < b) ∧
      (∀ x ∈ geradasEmMain filaExemplo pilhaExemplo sessaoExemplo.ultimo (fun i => i)
        [(1, 3), (2, 1), (6, 0), (5, 0), (4, 2), (3, 0), (2, 9), (0, 0)],
        x.id < s.fila.contadorID) ∧
      (∀ (opcao : Int) (r : Nat), ∃ s1, executarOpcao opcao r s = some s1 ∧
        (s.fila.contadorID < 2147483647 ∨ pecaGerada opcao r s = [] →
          s.fila.contadorID ≤ s1.fila.contadorID)) ∧
      (∀ r : Nat, ∃ p f1 q1, jogarPeca s.fila r = some (p, f1) ∧
        mostrarFila f1 = some (q1 ++ [(gerarPeca r s.fila.contadorID).1]) ∧
        (gerarPeca r s.fila.contadorID).1.id = s.fila.contadorID ∧
        (∀ x ∈ geradasEmMain filaExemplo pilhaExemplo sessaoExemplo.ultimo (fun i => i)
          [(1, 3), (2, 1), (6, 0), (5, 0), (4, 2), (3, 0), (2, 9), (0, 0)],
          x.id < (gerarPeca r s.fila.contadorID).1.id) ∧
        ∀ x ∈ q ++ st, x.id < (gerarPeca r s.fila.contadorID).1.id) :=
  ⟨by decide, by decide,
    main_ids_unicos filaExemplo pilhaExemplo sessaoExemplo.ultimo (fun i => i) _ (by decide)
      (by decide)⟩

theorem desfazerAposSalvar_jogadas (r : Nat) (m : Nat) :
    ∀ b : Bool, desfazerAposSalvar b (List.replicate m ((1 : Int), r)) = true := by
  induction m with
  | zero => intro b; rfl
  | succ m ih =>
    intro b
    simp only [List.replicate, desfazerAposSalvar]
    rw [if_neg (by decide)]
    exact ih _

/-- Playing `m` times in a row from a full queue whose counter is `2^31 - m`: the last
play overflows the 32-bit counter, which ends at `-2^31`, while the piece just inserted
at the tail has the id `2^31 - 1`. -/
theorem jogadas_transbordam (r : Nat) (m : Nat) :
    ∀ s : Sessao, filaCheia s.fila → 1 ≤ m →
      s.fila.contadorID + (m : Int) = 2147483648 → -2147483648 ≤ s.fila.contadorID →
      ∃ s1, mainLaco s (List.replicate m ((1 : Int), r)) = some s1 ∧ filaCheia s1.fila ∧
        s1.fila.contadorID = -2147483648 ∧
        (s1.fila.fila (casa (s1.fila.inicio + 4))).id = 2147483647 := by
  induction m with
  | zero => intro s _ h1 _ _; omega
  | succ m ih =>
    intro s hf _ hc hc0
    have hj := jogarPeca_cheia s.fila r hf
    have he : executarOpcao 1 r s = some
        ⟨filaAposJogar s.fila r, s.pilha, salvarEstado s.ultimo s.fila s.pilha⟩ := by
      simp [executarOpcao, opcaoJogar, hj]
    have hfj := filaAposJogar_cheia s.fila r hf
    by_cases hm : m = 0
    · subst hm
      have hcv : s.fila.contadorID = 2147483647 := by
        push_cast at hc
        omega
      refine ⟨⟨filaAposJogar s.fila r, s.pilha, salvarEstado s.ultimo s.fila s.pilha⟩,
        by simp [List.replicate, mainLaco, he], hfj, ?_, ?_⟩
      · simp only [filaAposJogar, hcv]
        decide
      · have e : casa ((s.fila.inicio + 1) % 5 + 4) = casa s.fila.inicio := by
          apply Fin.ext
          simp only [casa]
          omega
        simp only [filaAposJogar, e, Function.update_same, gerarPeca, hcv]
    · have hc1 : addI s.fila.contadorID 1 = s.fila.contadorID + 1 := by
        push_cast at hc
        exact wrap32_eq _ (by omega) (by omega)
      obtain ⟨s1, hl, h1, h2, h3⟩ :=
        ih ⟨filaAposJogar s.fila r, s.pilha, salvarEstado s.ultimo s.fila s.pilha⟩ hfj
          (by omega)
          (by show addI s.fila.contadorID 1 + (m : Int) = 2147483648
              rw [hc1]; push_cast at hc; omega)
          (by show -2147483648 ≤ addI s.fila.contadorID 1
              rw [hc1]; omega)
      refine ⟨s1, ?_, h1, h2, h3⟩
      simp only [List.replicate, mainLaco, he]
      rw [if_neg (by decide)]
      exact hl

/-- C13 (counterexample): after `2^31 - 6` plays from the fresh session the 32-bit
counter has wrapped to `-2^31`, so the live tail piece, whose id is `2^31 - 1`, is not
below `contadorID`. -/
theorem contador_transborda :
    desfazerAposSalvar false (List.replicate 2147483642 ((1 : Int), 0)) = true ∧
    ∃ s q, main filaExemplo pilhaExemplo sessaoExemplo.ultimo (fun i => i)
        (List.replicate 2147483642 ((1 : Int), 0)) = some s ∧
      mostrarFila s.fila = some q ∧ s.fila.contadorID = -2147483648 ∧
      ∃ x ∈ q, x.id = 2147483647 ∧ ¬ (x.id < s.fila.contadorID) := by
  refine ⟨desfazerAposSalvar_jogadas 0 _ false, ?_⟩
  obtain ⟨s, hl, hf, hc, hx⟩ := jogadas_transbordam 0 2147483642
    { fila := { fila := fun k => (gerarPeca ((fun i => i) k) ((k : Nat) + 1)).1,
                inicio := 0, fim := 0, tamanho := 5, contadorID := 6 },
      pilha := inicializarPilha pilhaExemplo, ultimo := sessaoExemplo.ultimo }
    ⟨⟨by decide, by decide⟩, rfl, rfl⟩ (by decide) (by decide) (by decide)
  refine ⟨s, _, by simp only [main, inicializarFila_eq, hl], mostrarFila_cheia s.fila hf, hc,
    s.fila.fila (casa (s.fila.inicio + 4)), ?_, hx, ?_⟩
  · rw [show (5 : Nat) = 4 + 1 by rfl, janela_succ_fundo]
    simp
  · rw [hx, hc]
    decide

end Tetris
